import Mathlib

/-!
Verification of the deepagents document-section pipeline.

This file gives a shallow embedding of the text-processing core of the
repository (section extraction, paragraph normalization, slug generation,
diff rendering, and the topic/section/version store) and proves or refutes
the spec's claims about it.  Strings are modelled as `List Char`; each
Python `re.sub` / `str.replace` call is embedded as a left-to-right scanner
with the exact semantics of the corresponding pattern.  The scanners recurse
structurally on a fuel argument so that they compute by kernel reduction;
every step consumes at least one input character, so a fuel equal to the
input length (supplied by each wrapper) never runs out, and the out-of-fuel
branch (returning the remaining input unchanged) is unreachable from the wrappers.
-/

/-- Python's `\s` whitespace class, restricted to its ASCII members, used by
`str.strip()` and by the paragraph splitter `re.split(r"\n\s*\n", ...)`. -/
def isPySpace (c : Char) : Bool :=
  c = ' ' || c = '\t' || c = '\n' || c = '\r' || c = '\x0b' || c = '\x0c'

/-- Python `str.strip()`: drop leading and trailing whitespace. -/
def pyStrip (l : List Char) : List Char :=
  ((l.dropWhile isPySpace).reverse.dropWhile isPySpace).reverse

/-- Fueled scanner for Python `str.replace(pat, rep)`: replace every
non-overlapping occurrence of `pat` from left to right, resuming the scan
after each replacement (the replacement text is not rescanned). -/
def replaceLitAux (pat rep : List Char) : Nat → List Char → List Char
  | 0, l => l
  | _ + 1, [] => []
  | fuel + 1, c :: rest =>
    if pat.isPrefixOf (c :: rest) then
      rep ++ replaceLitAux pat rep fuel (rest.drop (pat.length - 1))
    else
      c :: replaceLitAux pat rep fuel rest

/-- Python `str.replace(pat, rep)`.  All call sites use a non-empty `pat`. -/
def replaceLit (pat rep l : List Char) : List Char :=
  replaceLitAux pat rep l.length l

/-- Boolean substring test: `pat` occurs contiguously inside `l`. -/
def containsSub (pat : List Char) : List Char → Bool
  | [] => pat.isPrefixOf []
  | c :: rest => pat.isPrefixOf (c :: rest) || containsSub pat rest

/-- Fueled scanner for `_strip_html` (react_app.py): `re.sub(r"<[^>]+>", "", text)`.
A match is a `<`, one or more non-`>` characters (the greedy run up to the
first `>`), then `>`; where no match starts, the scan moves one character
right. -/
def stripHtmlAux : Nat → List Char → List Char
  | 0, l => l
  | _ + 1, [] => []
  | fuel + 1, c :: rest =>
    if c = '<' then
      match rest.dropWhile (fun d => d ≠ '>') with
      | _ :: rest' =>
        if rest.takeWhile (fun d => d ≠ '>') = [] then c :: stripHtmlAux fuel rest
        else stripHtmlAux fuel rest'
      | [] => c :: stripHtmlAux fuel rest
    else c :: stripHtmlAux fuel rest

/-- `_strip_html` (react_app.py). -/
def stripHtml (l : List Char) : List Char :=
  stripHtmlAux l.length l

/-- For `re.sub` patterns of the form `LIT([^}]*)\}...`: split `l` as
`arg ++ '}' :: rest` where `arg` is the greedy brace-free run, returning
`none` when no closing brace exists (the regex match fails there). -/
def braceSplit (l : List Char) : Option (List Char × List Char) :=
  match l.dropWhile (fun d => d ≠ '\x7d') with
  | _ :: rest => some (l.takeWhile (fun d => d ≠ '\x7d'), rest)
  | [] => none

/-- Fueled scanner for `re.sub` with a pattern `lit ++ "([^}]*)" ++ "}"` and
replacement `f arg`: where the literal head matches and a closing brace
follows, emit `f arg` and resume after the match; otherwise move one
character right. -/
def subBraceArgAux (lit : List Char) (f : List Char → List Char) :
    Nat → List Char → List Char
  | 0, l => l
  | _ + 1, [] => []
  | fuel + 1, c :: rest =>
    if lit.isPrefixOf (c :: rest) then
      match braceSplit (rest.drop (lit.length - 1)) with
      | some (arg, rest') => f arg ++ subBraceArgAux lit f fuel rest'
      | none => c :: subBraceArgAux lit f fuel rest
    else
      c :: subBraceArgAux lit f fuel rest

def subBraceArg (lit : List Char) (f : List Char → List Char) (l : List Char) :
    List Char :=
  subBraceArgAux lit f l.length l

/-- Fueled scanner for
`re.sub(r"\\begin\{(itemize|enumerate)\}|\\end\{(itemize|enumerate)\}", "\n\n", text)`:
replace each occurrence of one of the four literal delimiters by a blank line. -/
def subEnvDelimsAux : Nat → List Char → List Char
  | 0, l => l
  | _ + 1, [] => []
  | fuel + 1, c :: rest =>
    if ("\\begin\x7bitemize\x7d".toList).isPrefixOf (c :: rest) then
      '\n' :: '\n' :: subEnvDelimsAux fuel (rest.drop 14)
    else if ("\\begin\x7benumerate\x7d".toList).isPrefixOf (c :: rest) then
      '\n' :: '\n' :: subEnvDelimsAux fuel (rest.drop 16)
    else if ("\\end\x7bitemize\x7d".toList).isPrefixOf (c :: rest) then
      '\n' :: '\n' :: subEnvDelimsAux fuel (rest.drop 12)
    else if ("\\end\x7benumerate\x7d".toList).isPrefixOf (c :: rest) then
      '\n' :: '\n' :: subEnvDelimsAux fuel (rest.drop 14)
    else
      c :: subEnvDelimsAux fuel rest

def subEnvDelims (l : List Char) : List Char :=
  subEnvDelimsAux l.length l

/-- `_normalize_latex` (gradio_app.py), also the shared tail of
`_normalize_text` (react_app.py): the fixed ordered pipeline of `re.sub` /
`str.replace` steps that strips LaTeX decoration and finally removes all
remaining braces. -/
def normalize_latex (text : List Char) : List Char :=
  let t1 := subBraceArg ("\\cite\x7b".toList) (fun _ => []) text
  let t2 := subBraceArg ("\\textbf\x7b".toList) (fun a => a) t1
  let t3 := subBraceArg ("\\texttt\x7b".toList) (fun a => a) t2
  let t4 := subBraceArg ("\\emph\x7b".toList) (fun a => a) t3
  let t5 := subBraceArg ("\\subsection\x7b".toList)
    (fun a => '\n' :: '\n' :: a ++ ['\n', '\n']) t4
  let t6 := subBraceArg ("\\subsubsection\x7b".toList)
    (fun a => '\n' :: '\n' :: a ++ ['\n', '\n']) t5
  let t7 := subEnvDelims t6
  let t8 := replaceLit ("\\item".toList) ("- ".toList) t7
  let t9 := replaceLit ("\\&".toList) ("&".toList) t8
  let t10 := replaceLit ['\x7b'] [] t9
  replaceLit ['\x7d'] [] t10

/-- `_normalize_text` (react_app.py): `_strip_html` followed by exactly the
same substitution steps as `_normalize_latex`. -/
def normalize_text (text : List Char) : List Char :=
  normalize_latex (stripHtml text)

/-- Fueled scanner for `re.split(r"\n\s*\n", text)`: split at each
leftmost-first match of a newline, a greedy whitespace run, and a final
newline (the greedy `\s*` backtracks to the last newline of the run). -/
def splitBlankAux : Nat → List Char → List Char → List (List Char)
  | 0, acc, l => [acc.reverse ++ l]
  | _ + 1, acc, [] => [acc.reverse]
  | fuel + 1, acc, c :: rest =>
    if c = '\n' then
      let w := rest.takeWhile isPySpace
      match (w.enum.filter (fun p => p.2 = '\n')).getLast? with
      | some (j, _) => acc.reverse :: splitBlankAux fuel [] (rest.drop (j + 1))
      | none => splitBlankAux fuel (c :: acc) rest
    else
      splitBlankAux fuel (c :: acc) rest

def splitBlank (l : List Char) : List (List Char) :=
  splitBlankAux l.length [] l

/-- The placeholder paragraph used when a section body has no content. -/
def noContentPlaceholder : List Char := "(No content detected in this section.)".toList

/-- `_paragraphs_from_text` (react_app.py): normalize, split on blank lines,
strip each piece, drop empties, and fall back to the single placeholder. -/
def paragraphs_from_text (text : List Char) : List (List Char) :=
  let normalized := normalize_text text
  let paragraphs := ((splitBlank normalized).map pyStrip).filter (fun p => p ≠ [])
  if paragraphs = [] then [noContentPlaceholder] else paragraphs

/-- `_paragraphs_from_text` (gradio_app.py): identical but with
`_normalize_latex` (no HTML stripping). -/
def paragraphs_from_text_gradio (text : List Char) : List (List Char) :=
  let normalized := normalize_latex text
  let paragraphs := ((splitBlank normalized).map pyStrip).filter (fun p => p ≠ [])
  if paragraphs = [] then [noContentPlaceholder] else paragraphs

/-- Membership test for the character class `[a-z0-9]` of `slugify`. -/
def isLowerAlnum (c : Char) : Bool :=
  ('a' ≤ c && c ≤ 'z') || ('0' ≤ c && c ≤ '9')

/-- Fueled scanner for `re.sub(r"[^a-z0-9]+", "_", text)`: replace each
maximal run of characters outside `[a-z0-9]` by a single underscore. -/
def subNonAlnumAux : Nat → List Char → List Char
  | 0, l => l
  | _ + 1, [] => []
  | fuel + 1, c :: rest =>
    if isLowerAlnum c then c :: subNonAlnumAux fuel rest
    else '_' :: subNonAlnumAux fuel (rest.dropWhile (fun d => !isLowerAlnum d))

def subNonAlnum (l : List Char) : List Char :=
  subNonAlnumAux l.length l

/-- Fueled scanner for `re.sub(r"_+", "_", text)`. -/
def collapseUnderscoresAux : Nat → List Char → List Char
  | 0, l => l
  | _ + 1, [] => []
  | fuel + 1, c :: rest =>
    if c = '_' then '_' :: collapseUnderscoresAux fuel (rest.dropWhile (fun d => d = '_'))
    else c :: collapseUnderscoresAux fuel rest

def collapseUnderscores (l : List Char) : List Char :=
  collapseUnderscoresAux l.length l

/-- Python `str.strip("_")`. -/
def stripUnderscores (l : List Char) : List Char :=
  ((l.dropWhile (fun d => d = '_')).reverse.dropWhile (fun d => d = '_')).reverse

/-- `slugify` (pipeline.py): strip, lowercase (ASCII case mapping modelled),
replace each maximal run outside `[a-z0-9]` by `_`, collapse runs of `_`,
trim `_` from both ends, defaulting to "document". -/
def slugify (text : List Char) : List Char :=
  let t1 := (pyStrip text).map Char.toLower
  let t2 := subNonAlnum t1
  let t3 := collapseUnderscores t2
  let r := stripUnderscores t3
  if r = [] then "document".toList else r


/-- The literal head of `SECTION_PATTERN` (`\section{`), 9 characters. -/
def sectionLit : List Char := "\\section\x7b".toList

/-- The second lookahead alternative of `SECTION_PATTERN` (`\end{document}`). -/
def endDocumentLit : List Char := "\\end\x7bdocument\x7d".toList

/-- The zero-width lookahead `(?=\\section\{|\\end\{document\})` tested at
position `i` of `s`. -/
def lookaheadAt (s : List Char) (i : Nat) : Bool :=
  sectionLit.isPrefixOf (s.drop i) || endDocumentLit.isPrefixOf (s.drop i)

/-- Least position `≥ i` at which the lookahead matches: the non-greedy
`(.*?)` of `SECTION_PATTERN` stops at the first such position. -/
def findLookahead (s : List Char) : Nat → Nat → Option Nat
  | _, 0 => none
  | i, fuel + 1 => if lookaheadAt s i then some i else findLookahead s (i + 1) fuel

/-- Position of the first `}` at or after `i`: the greedy `[^}]*` of the
title group runs up to exactly this brace; `none` means the title group
cannot close and the match attempt fails. -/
def findCloseBrace (s : List Char) : Nat → Nat → Option Nat
  | _, 0 => none
  | i, fuel + 1 =>
    match s[i]? with
    | none => none
    | some c => if c = '\x7d' then some i else findCloseBrace s (i + 1) fuel

/-- One section as produced by `parse_sections`: `title` is the stripped
title group with the `"Section {index}"` fallback applied (both apps do
this), `body` is the text of group 2, and `body_start`/`body_end` are the
character offsets of group 2 recorded by the gradio variant. -/
structure ParsedSection where
  index : Nat
  title : List Char
  body : List Char
  body_start : Nat
  body_end : Nat
deriving DecidableEq, Repr

/-- `re.finditer` over `SECTION_PATTERN`: try a match at each position from
left to right; a successful match consumes up to its (zero-width-lookahead)
end, a failed attempt moves one position right.  A match needs the literal
`\section{`, a closing `}` for the title, and a later `\section{` or
`\end{document}` for the body's lookahead. -/
def scanSections (s : List Char) : Nat → Nat → Nat → List ParsedSection
  | _, _, 0 => []
  | i, idx, fuel + 1 =>
    if sectionLit.isPrefixOf (s.drop i) then
      match findCloseBrace s (i + 9) (s.length + 1) with
      | some j =>
        match findLookahead s (j + 1) (s.length + 1) with
        | some e =>
          { index := idx
            title :=
              (let t := pyStrip ((s.drop (i + 9)).take (j - (i + 9)))
               if t = [] then "Section ".toList ++ (Nat.repr idx).toList else t)
            body := (s.drop (j + 1)).take (e - (j + 1))
            body_start := j + 1
            body_end := e } :: scanSections s e (idx + 1) fuel
        | none => scanSections s (i + 1) idx fuel
      | none => scanSections s (i + 1) idx fuel
    else scanSections s (i + 1) idx fuel

/-- `parse_sections` (gradio_app.py / react_app.py): all matches of
`SECTION_PATTERN`, enumerated from 1. -/
def parse_sections (s : List Char) : List ParsedSection :=
  scanSections s 0 1 (s.length + 1)

/-- Python `html.escape(s, quote=True)`: the five replacements in source
order (`&` first). -/
def htmlEscape (l : List Char) : List Char :=
  replaceLit "'".toList "&#x27;".toList
    (replaceLit "\x22".toList "&quot;".toList
      (replaceLit ">".toList "&gt;".toList
        (replaceLit "<".toList "&lt;".toList
          (replaceLit "&".toList "&amp;".toList l))))

/-- `_RAW_HTML_PREFIXES` (react_app.py / gradio_app.py). -/
def rawHtmlPrefixes : List (List Char) :=
  ["<figure".toList, "<img".toList, "<iframe".toList, "<video".toList,
   "<svg".toList, "<table".toList, "<div".toList]

/-- `_looks_like_html_fragment`: stripped text starting with `<` whose
lowercasing starts with one of the raw-HTML prefixes. -/
def looks_like_html_fragment (text : List Char) : Bool :=
  let stripped := pyStrip text
  match stripped with
  | '<' :: _ => rawHtmlPrefixes.any (fun p => p.isPrefixOf (stripped.map Char.toLower))
  | _ => false

/-- One snippet of `_paragraphs_to_html` (1-based paragraph index `idx`). -/
def paragraph_to_html (sectionId : List Char) (idx : Nat) (para : List Char) :
    List Char :=
  if looks_like_html_fragment para then
    "<div id='".toList ++ sectionId ++ "-p".toList ++ (Nat.repr idx).toList ++
      "' class='para html-fragment'>".toList ++
      "<span class='para-index'>(".toList ++ (Nat.repr idx).toList ++
      ")</span> ".toList ++ pyStrip para ++ "</div>".toList
  else
    "<p id='".toList ++ sectionId ++ "-p".toList ++ (Nat.repr idx).toList ++
      "'><span class='para-index'>(".toList ++ (Nat.repr idx).toList ++
      ")</span> ".toList ++ htmlEscape para ++ "</p>".toList

/-- `_paragraphs_to_html`: one snippet per paragraph, joined by newlines. -/
def paragraphs_to_html (paras : List (List Char)) (sectionId : List Char) :
    List Char :=
  List.intercalate ['\n']
    ((paras.enum).map (fun p => paragraph_to_html sectionId (p.1 + 1) p.2))

/-- The `{title, html}` payload of one react `parse_sections` entry, as
consumed by `store_topic_sections`. -/
structure SectionData where
  title : List Char
  html : List Char
deriving DecidableEq, Repr

def sectionDataOf (sec : ParsedSection) : SectionData :=
  { title := sec.title
    html := paragraphs_to_html (paragraphs_from_text sec.body)
      ("section".toList ++ (Nat.repr sec.index).toList) }

/-- `sections_from_latex` (react_app.py): parsed sections, or the single
synthetic "Document" section when nothing matches. -/
def sections_from_latex (latex : List Char) : List SectionData :=
  let parsed := parse_sections latex
  if parsed = [] then
    [{ title := "Document".toList
       html := paragraphs_to_html (paragraphs_from_text latex) "section1".toList }]
  else parsed.map sectionDataOf

/-- The concrete document of the spec's section-extraction scenario. -/
def scenarioDoc : List Char :=
  "\\section\x7bIntro\x7dHello world.\n\n\\section\x7bConclusion\x7dBye.".toList

/-- The scenario document with an explicit `\end{document}` terminator. -/
def scenarioDocTerminated : List Char := scenarioDoc ++ endDocumentLit


/-- Decimal digit character for `k % 10`. -/
def digitChar (k : Nat) : Char :=
  (['0', '1', '2', '3', '4', '5', '6', '7', '8', '9'].getD k '9')

/-- Decimal representation of a natural number (what Python's `%d` and
`f"{n}"` produce), with a structural fuel. -/
def natReprAux : Nat → Nat → List Char
  | 0, _ => []
  | fuel + 1, n => if n < 10 then [digitChar n] else natReprAux fuel (n / 10) ++ [digitChar (n % 10)]

def natRepr (n : Nat) : List Char := natReprAux (n + 1) n

/-- Python `str.rstrip()`. -/
def pyRstrip (l : List Char) : List Char :=
  (l.reverse.dropWhile isPySpace).reverse

/-- Fueled Python `str.splitlines()` restricted to the `\n`, `\r`, `\r\n`
line boundaries (the only ones the pipeline's texts contain). -/
def splitlinesAux : Nat → List Char → List Char → List (List Char)
  | 0, acc, l => [acc.reverse ++ l]
  | _ + 1, acc, [] => [acc.reverse]
  | fuel + 1, acc, '\r' :: '\n' :: rest =>
    acc.reverse :: (if rest.isEmpty then [] else splitlinesAux fuel [] rest)
  | fuel + 1, acc, '\n' :: rest =>
    acc.reverse :: (if rest.isEmpty then [] else splitlinesAux fuel [] rest)
  | fuel + 1, acc, '\r' :: rest =>
    acc.reverse :: (if rest.isEmpty then [] else splitlinesAux fuel [] rest)
  | fuel + 1, acc, c :: rest => splitlinesAux fuel (c :: acc) rest

def pySplitlines (l : List Char) : List (List Char) :=
  if l.isEmpty then [] else splitlinesAux l.length [] l

/-- `str.expandtabs(8)` with the column bookkeeping of CPython, except that
(as in difflib's `_tab_newline_replace`) the fill characters are emitted as
tabs rather than spaces. -/
def expandTabsAux : Nat → List Char → List Char
  | _, [] => []
  | col, c :: rest =>
    if c = '\t' then
      let w := 8 - col % 8
      List.replicate w '\t' ++ expandTabsAux (col + w) rest
    else if c = '\n' || c = '\r' then c :: expandTabsAux 0 rest
    else c :: expandTabsAux (col + 1) rest

/-- One line of difflib's `_tab_newline_replace`: tabs expanded into runs of
tab characters (real spaces preserved), trailing newlines removed. -/
def tabNewlineLine (l : List Char) : List Char :=
  (((expandTabsAux 0 l).reverse).dropWhile (fun c => c = '\n')).reverse

/-- A row of the `_mdiff` iterator as consumed by `make_table`: `sep` is the
`(None, None, None)` separator row, `line` carries the optional line number
and marked-up text of each side plus the change flag. -/
inductive DiffRow
  | sep : DiffRow
  | line (fromNum : Option Nat) (fromText : List Char)
      (toNum : Option Nat) (toText : List Char) (flag : Bool) : DiffRow
deriving DecidableEq, Repr

/-- Model of `difflib._mdiff` in context mode (`make_table` is always called
with `context=True` here).  When the two line lists are equal there are no
change groups and the iterator yields nothing — the only case the theorems
below depend on, and exact for CPython.  For unequal lists the model yields
one flagged row per differing index wrapped in whole-line `\0^ ... \1`
markers; the real algorithm additionally windows the groups by `numlines`,
separates them with `sep` rows, and refines the intraline markup. -/
def mdiffContext (a b : List (List Char)) : List DiffRow :=
  let n := max a.length b.length
  let changed := (List.range n).filter (fun i => !((a[i]?) == (b[i]?)))
  if changed.isEmpty then []
  else
    changed.map (fun i =>
      DiffRow.line (some (i + 1)) ('\x00' :: '^' :: (a[i]?.getD []) ++ ['\x01'])
        (some (i + 1)) ('\x00' :: '^' :: (b[i]?.getD []) ++ ['\x01']) true)

/-- `HtmlDiff._format_line`: line-number anchor cell plus escaped text cell. -/
def format_line (pre : List Char) (num : Option Nat) (text : List Char) : List Char :=
  let numStr := match num with | some n => natRepr n | none => []
  let idAttr := match num with
    | some n => " id=\x22".toList ++ pre ++ natRepr n ++ "\x22".toList
    | none => []
  let t1 := replaceLit "<".toList "&lt;".toList
    (replaceLit ">".toList "&gt;".toList
      (replaceLit "&".toList "&amp;".toList text))
  let t2 := pyRstrip (replaceLit " ".toList "&nbsp;".toList t1)
  "<td class=\x22diff_header\x22".toList ++ idAttr ++ ">".toList ++ numStr ++
    "</td><td nowrap=\x22nowrap\x22>".toList ++ t2 ++ "</td>".toList

def noDiffFoundCell : List Char :=
  "<td></td><td>&nbsp;No Differences Found&nbsp;</td>".toList

def emptyFileCell : List Char := "<td></td><td>&nbsp;Empty File&nbsp;</td>".toList

def tLink (toPre : List Char) : List Char :=
  "<a href=\x22#difflib_chg_".toList ++ toPre ++ "_top\x22>t</a>".toList

def fLink (toPre : List Char) : List Char :=
  "<a href=\x22#difflib_chg_".toList ++ toPre ++ "_0\x22>f</a>".toList

def nLink (toPre : List Char) (k : Nat) : List Char :=
  "<a href=\x22#difflib_chg_".toList ++ toPre ++ "_".toList ++ natRepr k ++ "\x22>n</a>".toList

def idAnchor (toPre : List Char) (k : Nat) : List Char :=
  " id=\x22difflib_chg_".toList ++ toPre ++ "_".toList ++ natRepr k ++ "\x22".toList

/-- One iteration of the flag loop of `HtmlDiff._convert_flags` over
`(i, flag)`; the state is `(next_id, next_href, num_chg, in_change, last)`.
A `none` (separator) flag is falsy in Python and resets `in_change`. -/
def cfStep (toPre : List Char) (numlines : Nat)
    (st : List (List Char) × List (List Char) × Nat × Bool × Nat)
    (p : Nat × Option Bool) :
    List (List Char) × List (List Char) × Nat × Bool × Nat :=
  let (nid, nhref, numChg, inChange, last) := st
  match p.2 with
  | some true =>
    if inChange then (nid, nhref, numChg, true, last)
    else
      let nid' := nid.set (p.1 - numlines) (idAnchor toPre numChg)
      let nhref' := nhref.set p.1 (nLink toPre (numChg + 1))
      (nid', nhref', numChg + 1, true, p.1)
  | _ => (nid, nhref, numChg, false, last)

/-- `HtmlDiff._convert_flags`: next-change anchors/links, plus the
"No Differences Found"/"Empty File" placeholder when there are no rows.
Returns `(fromlist, tolist, flaglist, next_href, next_id)`. -/
def convert_flags (toPre : List Char) (numlines : Nat)
    (fromlist tolist : List (Option (List Char))) (flaglist : List (Option Bool))
    (context : Bool) :
    List (Option (List Char)) × List (Option (List Char)) × List (Option Bool) ×
      List (List Char) × List (List Char) :=
  let n := flaglist.length
  let init := (List.replicate n ([] : List Char), List.replicate n ([] : List Char),
    0, false, 0)
  let res := flaglist.enum.foldl (cfStep toPre numlines) init
  let nid := res.1
  let nhref := res.2.1
  let last := res.2.2.2.2
  if flaglist.isEmpty then
    let row := some (if context then noDiffFoundCell else emptyFileCell)
    ([row], [row], [some false], [tLink toPre], [[]])
  else
    let nhref1 := if flaglist.head? = some (some true) then nhref
      else nhref.set 0 (fLink toPre)
    let nhref2 := nhref1.set last (tLink toPre)
    (fromlist, tolist, flaglist, nhref2, nid)

/-- The `</tbody>`/`<tbody>` separator emitted between change groups. -/
def tbodySep : List Char := "        </tbody>        \n        <tbody>\n".toList

/-- The per-row format string of `make_table`. -/
def dataRow (nextId nextHref fromCell toCell : List Char) : List Char :=
  "            <tr><td class=\x22diff_next\x22".toList ++ nextId ++ ">".toList ++
    nextHref ++ "</td>".toList ++ fromCell ++
    "<td class=\x22diff_next\x22>".toList ++ nextHref ++ "</td>".toList ++
    toCell ++ "</tr>\n".toList

/-- The `<thead>` row of `make_table` (emitted when a description is given). -/
def headerRow (fromdesc todesc : List Char) : List Char :=
  if fromdesc ≠ [] || todesc ≠ [] then
    "<thead><tr><th class=\x22diff_next\x22><br /></th><th colspan=\x222\x22 class=\x22diff_header\x22>".toList ++
      fromdesc ++
      "</th><th class=\x22diff_next\x22><br /></th><th colspan=\x222\x22 class=\x22diff_header\x22>".toList ++
      todesc ++ "</th></tr></thead>".toList
  else []

/-- Everything `make_table` does after the `_mdiff` iterator is drained and
before the final marker replacements: format the rows, run
`_convert_flags`, and fill the table template. -/
def assembleCore (toPre fromPre : List Char) (fromdesc todesc : List Char)
    (context : Bool) (numlines : Nat) (rows : List DiffRow) : List Char :=
  let triples := rows.map (fun r =>
    match r with
    | DiffRow.sep => ((none : Option (List Char)), (none : Option (List Char)),
        (none : Option Bool))
    | DiffRow.line fn ft tn tt fl =>
      (some (format_line fromPre fn ft), some (format_line toPre tn tt), some fl))
  let res := convert_flags toPre numlines (triples.map (fun t => t.1))
    (triples.map (fun t => t.2.1)) (triples.map (fun t => t.2.2)) context
  let fromlist := res.1
  let tolist := res.2.1
  let flaglist := res.2.2.1
  let nhref := res.2.2.2.1
  let nid := res.2.2.2.2
  let pieces := (List.range flaglist.length).map (fun i =>
    match flaglist[i]? with
    | some none => if i > 0 then tbodySep else []
    | some (some _) =>
      dataRow (nid[i]?.getD []) (nhref[i]?.getD [])
        ((fromlist[i]?.getD none).getD []) ((tolist[i]?.getD none).getD [])
    | none => [])
  "\n    <table class=\x22diff\x22 id=\x22difflib_chg_".toList ++ toPre ++
    "_top\x22\n           cellspacing=\x220\x22 cellpadding=\x220\x22 rules=\x22groups\x22 >\n        <colgroup></colgroup> <colgroup></colgroup> <colgroup></colgroup>\n        <colgroup></colgroup> <colgroup></colgroup> <colgroup></colgroup>\n        ".toList ++
    headerRow fromdesc todesc ++ "\n        <tbody>\n".toList ++ pieces.flatten ++
    "        </tbody>\n    </table>".toList

/-- The five marker replacements `make_table` applies to the filled
template before returning it. -/
def applyMarkers (table : List Char) : List Char :=
  replaceLit "\t".toList "&nbsp;".toList
    (replaceLit "\x01".toList "</span>".toList
      (replaceLit ['\x00', '^'] "<span class=\x22diff_chg\x22>".toList
        (replaceLit ['\x00', '-'] "<span class=\x22diff_sub\x22>".toList
          (replaceLit ['\x00', '+'] "<span class=\x22diff_add\x22>".toList table))))

/-- `assembleCore` followed by the marker replacements. -/
def assembleTable (toPre fromPre : List Char) (fromdesc todesc : List Char)
    (context : Bool) (numlines : Nat) (rows : List DiffRow) : List Char :=
  applyMarkers (assembleCore toPre fromPre fromdesc todesc context numlines rows)

/-- Model of CPython `difflib.HtmlDiff.make_table` for the configuration the
repository uses (`HtmlDiff(wrapcolumn=90)`, `context=True`).  `counter` is
the process-global `HtmlDiff._default_prefix` class counter read by
`_make_prefix`; the caller threads `counter + 1` onward.  The anchor
prefixes, tab/newline preprocessing, `_convert_flags`, the no-difference
placeholder row, the table template, and the final marker replacements are
modelled exactly; the change-group windowing of `_mdiff` (never reached by
the theorems below) is schematic, see `mdiffContext`.  The `_line_wrapper`
pass applies only to lines longer than 90 characters inside change groups
and is omitted for the same reason. -/
def make_table (counter : Nat) (fromlines tolines : List (List Char))
    (fromdesc todesc : List Char) (numlines : Nat) : List Char :=
  let toPre := "to".toList ++ natRepr counter ++ "_".toList
  let fromPre := "from".toList ++ natRepr counter ++ "_".toList
  let f1 := fromlines.map tabNewlineLine
  let t1 := tolines.map tabNewlineLine
  assembleTable toPre fromPre fromdesc todesc true numlines (mdiffContext f1 t1)

/-- `DIFF_CSS` (react_app.py and gradio_app.py, identical). -/
def DIFF_CSS : List Char :=
  "\n<style>\n.diff-table table \x7b\n  width: 100%;\n  border-collapse: collapse;\n  font-family: monospace;\n  font-size: 0.85rem;\n\x7d\n.diff-table td, .diff-table th \x7b\n  border: 1px solid #ddd;\n  padding: 0.35rem 0.5rem;\n  vertical-align: top;\n\x7d\n.diff-table .diff_add \x7b\n  background: #e6ffed;\n\x7d\n.diff-table .diff_sub \x7b\n  background: #ffeef0;\n\x7d\n.diff-table .diff_chg \x7b\n  background: #fff5b1;\n\x7d\n</style>\n".toList

/-- The react variant's insufficient-input message. -/
def insufficientMsg : List Char :=
  "<p><em>Provide both original and working documents to view the diff.</em></p>".toList

/-- The gradio variant's insufficient-input message. -/
def insufficientMsgGradio : List Char :=
  "<p><em>Provide both primary and comparison documents to see the diff.</em></p>".toList

/-- `compute_diff_html` (react_app.py).  The extra `counter` argument and
result component model the process-global `HtmlDiff._default_prefix`
counter; the early return for missing input leaves it untouched (no
`HtmlDiff` is constructed and no diff is computed). -/
def compute_diff_html (counter : Nat) (primary compare : List Char) :
    List Char × Nat :=
  if primary.isEmpty || compare.isEmpty then (insufficientMsg, counter)
  else
    let primaryLines := pySplitlines (normalize_text primary)
    let compareLines := pySplitlines (normalize_text compare)
    let table := make_table counter primaryLines compareLines
      "Original".toList "Working".toList 1
    (DIFF_CSS ++ "<div class='diff-table'>".toList ++ table ++ "</div>".toList,
      counter + 1)

/-- `compute_diff_html` (gradio_app.py): same skeleton with
`_normalize_latex`, other descriptions, and another placeholder message. -/
def compute_diff_html_gradio (counter : Nat) (primary compare : List Char) :
    List Char × Nat :=
  if primary.isEmpty || compare.isEmpty then (insufficientMsgGradio, counter)
  else
    let primaryLines := pySplitlines (normalize_latex primary)
    let compareLines := pySplitlines (normalize_latex compare)
    let table := make_table counter primaryLines compareLines
      "Primary".toList "Comparison".toList 1
    (DIFF_CSS ++ "<div class='diff-table'>".toList ++ table ++ "</div>".toList,
      counter + 1)

/-- `Topic` row (react_app.py).  Timestamps are abstract ticks: each
operation takes the current tick `now` in place of `datetime.utcnow()`. -/
structure Topic where
  id : Nat
  slug : List Char
  title : List Char
  created_at : Nat
  updated_at : Nat
  status : List Char
deriving DecidableEq, Repr

/-- `Section` row (react_app.py). -/
structure Section where
  id : Nat
  topic_id : Nat
  order_index : Nat
  title : List Char
  html_content : List Char
  approved_html : Option (List Char)
  created_at : Nat
  updated_at : Nat
deriving DecidableEq, Repr

/-- `SectionVersion` row (react_app.py). -/
structure SectionVersion where
  id : Nat
  section_id : Nat
  label : List Char
  html_content : List Char
  created_at : Nat
deriving DecidableEq, Repr

/-- The SQL database: the three tables plus the autoincrement counters of
their integer primary keys. -/
structure DB where
  topics : List Topic
  sections : List Section
  versions : List SectionVersion
  nextTopicId : Nat
  nextSectionId : Nat
  nextVersionId : Nat
deriving DecidableEq, Repr

/-- SQLModel's `.one_or_none()`: `some (some x)` for a single row, `some
none` for no row, `none` for the multiple-rows error. -/
def oneOrNone : List α → Option (Option α)
  | [] => some none
  | [x] => some (some x)
  | _ :: _ :: _ => none

/-- Python `pathlib.Path(p).stem`: the final path component minus its last
dot suffix (a dot at position 0 of the component does not count). -/
def pathStem (l : List Char) : List Char :=
  let name := (l.reverse.takeWhile (fun c => c ≠ '/')).reverse
  let tail := name.reverse.takeWhile (fun c => c ≠ '.')
  if tail.length < name.length && name.length - 1 - tail.length ≥ 1 then
    name.take (name.length - 1 - tail.length)
  else name

/-- `_slug_from_identifier` (react_app.py): strip, drop a `topic:` prefix,
reduce paths and `.tex` names to their stem, and slugify. -/
def slug_from_identifier (identifier : List Char) : List Char :=
  let ident := pyStrip identifier
  let ident1 := if "topic:".toList.isPrefixOf ident then ident.drop 6 else ident
  let ident2 :=
    if ident1.contains '/' || ".tex".toList.isSuffixOf ident1 then pathStem ident1
    else ident1
  slugify ident2

/-- The database effect of `promote_document` (react_app.py): resolve the
topic by slug and the section by `(topic_id, order_index)`; copy the
section's working content into `approved_html`, touch the timestamps, and
append one `SectionVersion` labelled "approved" with that content.  `none`
models the HTTP 404 / multiple-row error paths, which change nothing. -/
def promote_document (db : DB) (now : Nat) (context_path : List Char)
    (section_index : Nat) : Option DB :=
  let slug := slug_from_identifier context_path
  match oneOrNone (db.topics.filter (fun t => t.slug == slug)) with
  | none => none
  | some none => none
  | some (some topic) =>
    match oneOrNone (db.sections.filter
        (fun s => s.topic_id == topic.id && s.order_index == section_index)) with
    | none => none
    | some none => none
    | some (some sec) =>
      some { db with
        sections := db.sections.map (fun s =>
          if s.id == sec.id then
            { s with approved_html := some sec.html_content, updated_at := now }
          else s)
        topics := db.topics.map (fun t =>
          if t.id == topic.id then { t with updated_at := now } else t)
        versions := db.versions ++
          [⟨db.nextVersionId, sec.id, "approved".toList, sec.html_content, now⟩]
        nextVersionId := db.nextVersionId + 1 }

/-- The insertion loop of `store_topic_sections`: one `Section` row per
parsed section (1-based `order_index`, `approved_html` initialised to the
working content) and one "initial" `SectionVersion` per row. -/
def insertSections : DB → Nat → Nat → Nat → List SectionData → DB
  | db, _, _, _, [] => db
  | db, tid, now, order, d :: ds =>
    insertSections
      { db with
        sections := db.sections ++
          [⟨db.nextSectionId, tid, order, d.title, d.html, some d.html, now, now⟩]
        nextSectionId := db.nextSectionId + 1
        versions := db.versions ++
          [⟨db.nextVersionId, db.nextSectionId, "initial".toList, d.html, now⟩]
        nextVersionId := db.nextVersionId + 1 }
      tid now (order + 1) ds

/-- The database effect of `store_topic_sections` (react_app.py): resolve or
create the topic for `slugify(topic_name)`, delete all of its existing
`Section` rows together with their `SectionVersion` rows, and insert fresh
rows from `sections_from_latex(latex)`.  Returns the updated database and
the topic id; `none` models the multiple-row error path. -/
def store_topic_sections (db : DB) (now : Nat) (topic_name latex : List Char) :
    Option (DB × Nat) :=
  let slug := slugify topic_name
  let data := sections_from_latex latex
  match oneOrNone (db.topics.filter (fun t => t.slug == slug)) with
  | none => none
  | some topt =>
    let db1tid : DB × Nat :=
      match topt with
      | none =>
        ({ db with
            topics := db.topics ++
              [⟨db.nextTopicId, slug, topic_name, now, now, "draft".toList⟩]
            nextTopicId := db.nextTopicId + 1 }, db.nextTopicId)
      | some t =>
        ({ db with
            topics := db.topics.map (fun x =>
              if x.id == t.id then { x with title := topic_name, updated_at := now }
              else x) }, t.id)
    let db1 := db1tid.1
    let tid := db1tid.2
    let oldIds := (db1.sections.filter (fun s => s.topic_id == tid)).map Section.id
    let db2 := { db1 with
      sections := db1.sections.filter (fun s => !(s.topic_id == tid))
      versions := db1.versions.filter (fun v => !(oldIds.contains v.section_id)) }
    some (insertSections db2 tid now 1 data, tid)

/-- Closed form of the `Section` rows created by `insertSections`. -/
def builtSections (sid tid now order : Nat) : List SectionData → List Section
  | [] => []
  | d :: ds =>
    ⟨sid, tid, order, d.title, d.html, some d.html, now, now⟩ ::
      builtSections (sid + 1) tid now (order + 1) ds

/-- Closed form of the `SectionVersion` rows created by `insertSections`. -/
def builtVersions (vid sid now : Nat) : List SectionData → List SectionVersion
  | [] => []
  | d :: ds =>
    ⟨vid, sid, "initial".toList, d.html, now⟩ :: builtVersions (vid + 1) (sid + 1) now ds

/-- The changed-line cell marker of the diff output (`_format_line` wraps
changed/added/removed spans in elements carrying these classes; the style
block `DIFF_CSS` only ever names them as CSS selectors `.diff_add` etc.,
never as a `class="..."` attribute). -/
def addMarker : List Char := "class=\x22diff_add\x22".toList

def subMarker : List Char := "class=\x22diff_sub\x22".toList

def chgMarker : List Char := "class=\x22diff_chg\x22".toList

/-- Fixed segment 1 of the no-difference table (between the counter digits). -/
def noDiffA1 : List Char :=
  "\n    <table class=\x22diff\x22 id=\x22difflib_chg_to".toList

/-- Fixed segment 2 of the no-difference table (between the counter digits). -/
def noDiffA2 : List Char :=
  "__top\x22\n           cellspacing=\x220\x22 cellpadding=\x220\x22 rules=\x22groups\x22 >\n        <colgroup></colgroup> <colgroup></colgroup> <colgroup></colgroup>\n        <colgroup></colgroup> <colgroup></colgroup> <colgroup></colgroup>\n        <thead><tr><th class=\x22diff_next\x22><br /></th><th colspan=\x222\x22 class=\x22diff_header\x22>Original</th><th class=\x22diff_next\x22><br /></th><th colspan=\x222\x22 class=\x22diff_header\x22>Working</th></tr></thead>\n        <tbody>\n            <tr><td class=\x22diff_next\x22><a href=\x22#difflib_chg_to".toList

/-- Fixed segment 3 of the no-difference table (between the counter digits). -/
def noDiffA3 : List Char :=
  "__top\x22>t</a></td><td></td><td>&nbsp;No Differences Found&nbsp;</td><td class=\x22diff_next\x22><a href=\x22#difflib_chg_to".toList

/-- Fixed segment 4 of the no-difference table (between the counter digits). -/
def noDiffA4 : List Char :=
  "__top\x22>t</a></td><td></td><td>&nbsp;No Differences Found&nbsp;</td></tr>\n        </tbody>\n    </table>".toList


/-! ### Generic lemmas about the scanners -/

theorem containsSub_iff_infix (pat l : List Char) :
    containsSub pat l = true ↔ pat <:+: l := by
  induction l with
  | nil =>
    simp [containsSub, List.isPrefixOf_iff_prefix]
  | cons c rest ih =>
    simp [containsSub, List.isPrefixOf_iff_prefix, ih, List.infix_cons_iff]

theorem containsSub_eq_false_iff (pat l : List Char) :
    containsSub pat l = false ↔ ¬ pat <:+: l := by
  rw [← containsSub_iff_infix]
  cases containsSub pat l <;> simp

theorem singleton_infix_iff (d : Char) (l : List Char) : [d] <:+: l ↔ d ∈ l := by
  induction l with
  | nil => simp
  | cons c rest ih =>
    simp [List.infix_cons_iff, ih, List.cons_prefix_cons, eq_comm]

theorem replaceLitAux_id {pat : List Char} (rep : List Char) :
    ∀ fuel l, ¬ pat <:+: l → replaceLitAux pat rep fuel l = l := by
  intro fuel
  induction fuel with
  | zero => intro l _; rfl
  | succ n ih =>
    intro l h
    cases l with
    | nil => rfl
    | cons c rest =>
      have hp : pat.isPrefixOf (c :: rest) = false := by
        cases hh : pat.isPrefixOf (c :: rest) with
        | false => rfl
        | true => exact absurd (List.isPrefixOf_iff_prefix.mp hh).isInfix h
      simp only [replaceLitAux, hp, Bool.false_eq_true, if_false]
      exact congrArg (c :: ·) (ih rest (fun hr => h (List.infix_cons_iff.mpr (Or.inr hr))))

theorem replaceLit_id {pat : List Char} (rep l : List Char) (h : ¬ pat <:+: l) :
    replaceLit pat rep l = l :=
  replaceLitAux_id rep l.length l h

theorem mem_replaceLitAux_single {d : Char} :
    ∀ fuel (l : List Char) c, c ∈ replaceLitAux [d] [] fuel l → c ∈ l := by
  intro fuel
  induction fuel with
  | zero => intro l c hc; exact hc
  | succ n ih =>
    intro l c hc
    cases l with
    | nil => simp only [replaceLitAux] at hc; exact hc
    | cons x rest =>
      by_cases hx : ([d] : List Char).isPrefixOf (x :: rest)
      · simp only [replaceLitAux, hx, if_true, List.nil_append] at hc
        simp only [List.length_singleton, Nat.sub_self, List.drop_zero] at hc
        exact List.mem_cons_of_mem x (ih rest c hc)
      · simp only [replaceLitAux, hx, Bool.false_eq_true, if_false] at hc
        rcases List.mem_cons.mp hc with h | h
        · exact h ▸ List.mem_cons_self x rest
        · exact List.mem_cons_of_mem x (ih rest c h)

theorem not_mem_replaceLitAux_single {d : Char} :
    ∀ fuel (l : List Char), l.length ≤ fuel → d ∉ replaceLitAux [d] [] fuel l := by
  intro fuel
  induction fuel with
  | zero =>
    intro l hl
    have : l = [] := List.length_eq_zero.mp (Nat.le_zero.mp hl)
    simp [this, replaceLitAux]
  | succ n ih =>
    intro l hl
    cases l with
    | nil => simp [replaceLitAux]
    | cons x rest =>
      simp only [List.length_cons, Nat.succ_le_succ_iff] at hl
      by_cases hx : ([d] : List Char).isPrefixOf (x :: rest)
      · simp only [replaceLitAux, hx, if_true, List.nil_append, List.length_singleton,
          Nat.sub_self, List.drop_zero]
        exact ih rest hl
      · simp only [replaceLitAux, hx, Bool.false_eq_true, if_false]
        intro hmem
        rcases List.mem_cons.mp hmem with h | h
        · exact hx (by simp [List.isPrefixOf, h])
        · exact ih rest hl h

theorem stripHtmlAux_id : ∀ fuel (l : List Char), '<' ∉ l → stripHtmlAux fuel l = l := by
  intro fuel
  induction fuel with
  | zero => intro l _; rfl
  | succ n ih =>
    intro l h
    cases l with
    | nil => rfl
    | cons c rest =>
      have hc : ¬ c = '<' := fun hc => h (hc ▸ List.mem_cons_self c rest)
      simp only [stripHtmlAux, hc, if_false]
      exact congrArg (c :: ·) (ih rest (fun hr => h (List.mem_cons_of_mem c hr)))

theorem subBraceArgAux_id {lit : List Char} (f : List Char → List Char)
    (hlit : '\x7b' ∈ lit) :
    ∀ fuel (l : List Char), '\x7b' ∉ l → subBraceArgAux lit f fuel l = l := by
  intro fuel
  induction fuel with
  | zero => intro l _; rfl
  | succ n ih =>
    intro l h
    cases l with
    | nil => rfl
    | cons c rest =>
      have hp : lit.isPrefixOf (c :: rest) = false := by
        cases hh : lit.isPrefixOf (c :: rest) with
        | false => rfl
        | true => exact absurd ((List.isPrefixOf_iff_prefix.mp hh).subset hlit) h
      simp only [subBraceArgAux, hp, Bool.false_eq_true, if_false]
      exact congrArg (c :: ·) (ih rest (fun hr => h (List.mem_cons_of_mem c hr)))

theorem subEnvDelimsAux_id :
    ∀ fuel (l : List Char), '\x7b' ∉ l → subEnvDelimsAux fuel l = l := by
  intro fuel
  induction fuel with
  | zero => intro l _; rfl
  | succ n ih =>
    intro l h
    cases l with
    | nil => rfl
    | cons c rest =>
      have hmk : ∀ lit : List Char, '\x7b' ∈ lit → lit.isPrefixOf (c :: rest) = false := by
        intro lit hlit
        cases hh : lit.isPrefixOf (c :: rest) with
        | false => rfl
        | true => exact absurd ((List.isPrefixOf_iff_prefix.mp hh).subset hlit) h
      simp only [subEnvDelimsAux,
        hmk ("\\begin\x7bitemize\x7d".toList) (by decide),
        hmk ("\\begin\x7benumerate\x7d".toList) (by decide),
        hmk ("\\end\x7bitemize\x7d".toList) (by decide),
        hmk ("\\end\x7benumerate\x7d".toList) (by decide),
        Bool.false_eq_true, if_false]
      exact congrArg (c :: ·) (ih rest (fun hr => h (List.mem_cons_of_mem c hr)))

/-! ### The normalization pipeline never outputs braces and is a fixpoint
on brace-free, marker-free text -/

theorem normalize_latex_close_brace_not_mem (t : List Char) :
    '\x7d' ∉ normalize_latex t := by
  simp only [normalize_latex, replaceLit]
  exact not_mem_replaceLitAux_single _ _ (Nat.le_refl _)

theorem normalize_latex_open_brace_not_mem (t : List Char) :
    '\x7b' ∉ normalize_latex t := by
  simp only [normalize_latex, replaceLit]
  intro hmem
  have h1 := mem_replaceLitAux_single _ _ _ hmem
  exact not_mem_replaceLitAux_single _ _ (Nat.le_refl _) h1

theorem normalize_latex_fixpoint (z : List Char)
    (hbo : '\x7b' ∉ z) (hbc : '\x7d' ∉ z)
    (hi : ¬ ("\\item".toList <:+: z)) (ha : ¬ ("\\&".toList <:+: z)) :
    normalize_latex z = z := by
  have hcite := @subBraceArgAux_id ("\\cite\x7b".toList) (fun _ => [])
    (by decide) z.length z hbo
  have htb := @subBraceArgAux_id ("\\textbf\x7b".toList) (fun a => a)
    (by decide) z.length z hbo
  have htt := @subBraceArgAux_id ("\\texttt\x7b".toList) (fun a => a)
    (by decide) z.length z hbo
  have hem := @subBraceArgAux_id ("\\emph\x7b".toList) (fun a => a)
    (by decide) z.length z hbo
  have hsub := @subBraceArgAux_id ("\\subsection\x7b".toList)
    (fun a => '\n' :: '\n' :: a ++ ['\n', '\n']) (by decide) z.length z hbo
  have hssub := @subBraceArgAux_id ("\\subsubsection\x7b".toList)
    (fun a => '\n' :: '\n' :: a ++ ['\n', '\n']) (by decide) z.length z hbo
  have henv := subEnvDelimsAux_id z.length z hbo
  have hitem := @replaceLitAux_id ("\\item".toList) ("- ".toList) z.length z hi
  have hamp := @replaceLitAux_id ("\\&".toList) ("&".toList) z.length z ha
  have hob := @replaceLitAux_id (['\x7b']) [] z.length z
    (fun hinf => hbo ((singleton_infix_iff _ _).mp hinf))
  have hcb := @replaceLitAux_id (['\x7d']) [] z.length z
    (fun hinf => hbc ((singleton_infix_iff _ _).mp hinf))
  simp only [normalize_latex, subBraceArg, subEnvDelims, replaceLit,
    hcite, htb, htt, hem, hsub, hssub, henv, hitem, hamp, hob, hcb]

/-- C2 counterexample: paragraph normalization is not idempotent.  On the
three-character input `\\&`, the `\&`-unescaping step turns the second and
third characters into `&`, leaving `\&`, and a second run turns that into
`&`.  (The same failure arises, e.g., for `\i{}tem`, where the final brace
removal manufactures a fresh `\item` marker.) -/
theorem C2_counterexample :
    normalize_text ("\\\\&".toList) = "\\&".toList ∧
    normalize_text (normalize_text ("\\\\&".toList)) = "&".toList ∧
    (normalize_text (normalize_text ("\\\\&".toList)) ==
      normalize_text ("\\\\&".toList)) = false ∧
    (normalize_latex (normalize_latex ("\\\\&".toList)) ==
      normalize_latex ("\\\\&".toList)) = false := by
  decide

/-- C2 (amended): paragraph normalization is idempotent on every input whose
first normalization contains no `<` character and no residual `\item` or
`\&` marker (braces never survive the pipeline's final step, so none of the
brace-triggered rules can fire a second time); without those conditions a
second run can differ, as `\\&` shows. -/
theorem C2_normalize_idempotent_amended (x : List Char)
    (h1 : '<' ∉ normalize_text x)
    (h2 : ¬ ("\\item".toList <:+: normalize_text x))
    (h3 : ¬ ("\\&".toList <:+: normalize_text x))
    (h4 : ¬ ("\\item".toList <:+: normalize_latex x))
    (h5 : ¬ ("\\&".toList <:+: normalize_latex x)) :
    normalize_text (normalize_text x) = normalize_text x ∧
    normalize_latex (normalize_latex x) = normalize_latex x := by
  constructor
  · have hs : stripHtml (normalize_text x) = normalize_text x :=
      stripHtmlAux_id _ _ h1
    show normalize_latex (stripHtml (normalize_text x)) = normalize_text x
    rw [hs]
    exact normalize_latex_fixpoint _
      (normalize_latex_open_brace_not_mem (stripHtml x))
      (normalize_latex_close_brace_not_mem (stripHtml x)) h2 h3
  · exact normalize_latex_fixpoint _
      (normalize_latex_open_brace_not_mem x)
      (normalize_latex_close_brace_not_mem x) h4 h5

/-- C2 witness: the amended idempotence applied to a concrete input whose
normalization (`hello world`) is free of the excluded markers. -/
theorem C2_normalize_idempotent_amended_witness :
    normalize_text (normalize_text ("hello \\textbf\x7bworld\x7d".toList)) =
      normalize_text ("hello \\textbf\x7bworld\x7d".toList) ∧
    normalize_latex (normalize_latex ("hello \\textbf\x7bworld\x7d".toList)) =
      normalize_latex ("hello \\textbf\x7bworld\x7d".toList) :=
  C2_normalize_idempotent_amended ("hello \\textbf\x7bworld\x7d".toList)
    (by decide) (by decide) (by decide) (by decide) (by decide)

/-- C7: whenever normalization plus blank-line splitting yields no non-blank
paragraph, the paragraph segmenter returns exactly the one placeholder
paragraph (never an empty list), in both the react and the gradio variant. -/
theorem C7_empty_body_placeholder (t : List Char)
    (hr : ((splitBlank (normalize_text t)).map pyStrip).filter (fun p => p ≠ []) = [])
    (hg : ((splitBlank (normalize_latex t)).map pyStrip).filter (fun p => p ≠ []) = []) :
    paragraphs_from_text t = [noContentPlaceholder] ∧
    (paragraphs_from_text t).length = 1 ∧
    paragraphs_from_text_gradio t = [noContentPlaceholder] ∧
    (paragraphs_from_text_gradio t).length = 1 := by
  have h1 : paragraphs_from_text t = [noContentPlaceholder] := by
    simp only [paragraphs_from_text]
    rw [hr]
    simp
  have h2 : paragraphs_from_text_gradio t = [noContentPlaceholder] := by
    simp only [paragraphs_from_text_gradio]
    rw [hg]
    simp
  exact ⟨h1, by rw [h1]; rfl, h2, by rw [h2]; rfl⟩

/-- C7 witness: an entirely blank section body satisfies the emptiness
hypotheses and produces the single placeholder paragraph. -/
theorem C7_empty_body_placeholder_witness :
    paragraphs_from_text ("  \n \n  ".toList) = [noContentPlaceholder] ∧
    (paragraphs_from_text ("  \n \n  ".toList)).length = 1 ∧
    paragraphs_from_text_gradio ("  \n \n  ".toList) = [noContentPlaceholder] ∧
    (paragraphs_from_text_gradio ("  \n \n  ".toList)).length = 1 :=
  C7_empty_body_placeholder ("  \n \n  ".toList) (by decide) (by decide)

/-! ### Shape of `slugify` output (C8) -/

theorem head?_dropWhile_pred (p : Char → Bool) :
    ∀ (l : List Char) a, (l.dropWhile p).head? = some a → p a = false := by
  intro l
  induction l with
  | nil => intro a ha; simp [List.dropWhile] at ha
  | cons c rest ih =>
    intro a ha
    rw [List.dropWhile_cons] at ha
    by_cases hc : p c
    · rw [if_pos hc] at ha; exact ih a ha
    · rw [if_neg hc] at ha
      simp only [List.head?_cons, Option.some.injEq] at ha
      subst ha
      simpa using hc

theorem mem_subNonAlnumAux :
    ∀ fuel (l : List Char), l.length ≤ fuel →
      ∀ c ∈ subNonAlnumAux fuel l, isLowerAlnum c = true ∨ c = '_' := by
  intro fuel
  induction fuel with
  | zero =>
    intro l hl c hc
    have : l = [] := List.length_eq_zero.mp (Nat.le_zero.mp hl)
    subst this
    simp [subNonAlnumAux] at hc
  | succ n ih =>
    intro l hl c hc
    cases l with
    | nil => simp [subNonAlnumAux] at hc
    | cons x rest =>
      simp only [List.length_cons, Nat.succ_le_succ_iff] at hl
      by_cases hx : isLowerAlnum x
      · simp only [subNonAlnumAux, hx, if_true] at hc
        rcases List.mem_cons.mp hc with h | h
        · exact Or.inl (h ▸ hx)
        · exact ih rest hl c h
      · simp only [subNonAlnumAux, hx, Bool.false_eq_true, if_false] at hc
        rcases List.mem_cons.mp hc with h | h
        · exact Or.inr h
        · have hlen : (rest.dropWhile (fun d => !isLowerAlnum d)).length ≤ n :=
            Nat.le_trans (List.dropWhile_suffix _).length_le hl
          exact ih _ hlen c h

theorem mem_collapseUnderscoresAux :
    ∀ fuel (l : List Char), l.length ≤ fuel →
      ∀ c ∈ collapseUnderscoresAux fuel l, c ∈ l ∨ c = '_' := by
  intro fuel
  induction fuel with
  | zero =>
    intro l hl c hc
    have : l = [] := List.length_eq_zero.mp (Nat.le_zero.mp hl)
    subst this
    simp [collapseUnderscoresAux] at hc
  | succ n ih =>
    intro l hl c hc
    cases l with
    | nil => simp [collapseUnderscoresAux] at hc
    | cons x rest =>
      simp only [List.length_cons, Nat.succ_le_succ_iff] at hl
      by_cases hx : x = '_'
      · simp only [collapseUnderscoresAux, hx, if_pos rfl] at hc
        rcases List.mem_cons.mp hc with h | h
        · exact Or.inr h
        · have hlen : (rest.dropWhile (fun d => d = '_')).length ≤ n :=
            Nat.le_trans (List.dropWhile_suffix _).length_le hl
          rcases ih _ hlen c h with h2 | h2
          · exact Or.inl (List.mem_cons_of_mem x ((List.dropWhile_suffix _).subset h2))
          · exact Or.inr h2
      · simp only [collapseUnderscoresAux, hx, if_neg hx] at hc
        rcases List.mem_cons.mp hc with h | h
        · exact Or.inl (h ▸ List.mem_cons_self x rest)
        · rcases ih rest hl c h with h2 | h2
          · exact Or.inl (List.mem_cons_of_mem x h2)
          · exact Or.inr h2

theorem collapseUnderscoresAux_head? (fuel : Nat) (l : List Char) :
    (collapseUnderscoresAux fuel l).head? = l.head? := by
  cases fuel with
  | zero => rfl
  | succ n =>
    cases l with
    | nil => rfl
    | cons c rest =>
      by_cases hc : c = '_'
      · simp [collapseUnderscoresAux, hc]
      · simp [collapseUnderscoresAux, hc]

theorem collapse_no_dd :
    ∀ fuel (l : List Char), l.length ≤ fuel →
      ¬ (['_', '_'] <:+: collapseUnderscoresAux fuel l) := by
  intro fuel
  induction fuel with
  | zero =>
    intro l hl h
    have : l = [] := List.length_eq_zero.mp (Nat.le_zero.mp hl)
    subst this
    simp [collapseUnderscoresAux, List.infix_nil] at h
  | succ n ih =>
    intro l hl h
    cases l with
    | nil => simp [collapseUnderscoresAux, List.infix_nil] at h
    | cons x rest =>
      simp only [List.length_cons, Nat.succ_le_succ_iff] at hl
      by_cases hx : x = '_'
      · rw [show collapseUnderscoresAux (n + 1) (x :: rest) =
            '_' :: collapseUnderscoresAux n (rest.dropWhile (fun d => d = '_')) by
          simp [collapseUnderscoresAux, hx]] at h
        rcases List.infix_cons_iff.mp h with hpre | hinf
        · rcases List.cons_prefix_cons.mp hpre with ⟨-, hpre2⟩
          rcases hpre2 with ⟨tl, htl⟩
          have hhead : (collapseUnderscoresAux n
              (rest.dropWhile (fun d => d = '_'))).head? = some '_' := by
            rw [← htl]; rfl
          rw [collapseUnderscoresAux_head?] at hhead
          have := head?_dropWhile_pred (fun d => d = '_') _ _ hhead
          simp at this
        · have hlen : (rest.dropWhile (fun d => d = '_')).length ≤ n :=
            Nat.le_trans (List.dropWhile_suffix _).length_le hl
          exact ih _ hlen hinf
      · rw [show collapseUnderscoresAux (n + 1) (x :: rest) =
            x :: collapseUnderscoresAux n rest by
          simp [collapseUnderscoresAux, hx]] at h
        rcases List.infix_cons_iff.mp h with hpre | hinf
        · rcases List.cons_prefix_cons.mp hpre with ⟨heq, -⟩
          exact hx heq.symm
        · exact ih rest hl hinf

theorem stripUnderscores_subseg (q : List Char) : stripUnderscores q <:+: q := by
  have h1 : q.dropWhile (fun d => d = '_') <:+ q := List.dropWhile_suffix _
  have h2 : stripUnderscores q <+: q.dropWhile (fun d => d = '_') := by
    rw [← List.reverse_suffix]
    simp only [stripUnderscores, List.reverse_reverse]
    exact List.dropWhile_suffix _
  exact h2.isInfix.trans h1.isInfix

theorem stripUnderscores_head? (q : List Char) (a : Char)
    (h : (stripUnderscores q).head? = some a) : (a = '_') = False := by
  have h2 : stripUnderscores q <+: q.dropWhile (fun d => d = '_') := by
    rw [← List.reverse_suffix]
    simp only [stripUnderscores, List.reverse_reverse]
    exact List.dropWhile_suffix _
  rcases h2 with ⟨tl, htl⟩
  have hq : (q.dropWhile (fun d => d = '_')).head? = some a := by
    rw [← htl]
    cases hs : stripUnderscores q with
    | nil => rw [hs] at h; simp at h
    | cons b l2 => rw [hs] at h; simp at h; simp [h]
  have := head?_dropWhile_pred (fun d => d = '_') _ _ hq
  simpa using this

theorem stripUnderscores_getLast (q : List Char) (a : Char)
    (h : (stripUnderscores q).reverse.head? = some a) : (a = '_') = False := by
  simp only [stripUnderscores, List.reverse_reverse] at h
  have := head?_dropWhile_pred (fun d => d = '_') _ _ h
  simpa using this

/-- C8: `slugify` always returns a string over `[a-z0-9_]` that neither
starts nor ends with an underscore and never contains two consecutive
underscores (each maximal non-alphanumeric run having been collapsed to a
single one, and leading/trailing underscores trimmed). -/
theorem C8_slugify_shape (s : List Char) :
    (slugify s).all (fun c => isLowerAlnum c || c = '_') = true ∧
    ((slugify s).take 1 == ['_']) = false ∧
    ((slugify s).reverse.take 1 == ['_']) = false ∧
    containsSub ['_', '_'] (slugify s) = false := by
  by_cases hr :
      stripUnderscores (collapseUnderscores (subNonAlnum ((pyStrip s).map Char.toLower))) = []
  · rw [show slugify s = "document".toList by simp [slugify, hr]]
    decide
  · rw [show slugify s =
        stripUnderscores (collapseUnderscores (subNonAlnum ((pyStrip s).map Char.toLower)))
        from by simp [slugify, hr]]
    set q := collapseUnderscores (subNonAlnum ((pyStrip s).map Char.toLower)) with hq
    refine ⟨?_, ?_, ?_, ?_⟩
    · rw [List.all_eq_true]
      intro c hc
      have hcq : c ∈ q := (stripUnderscores_subseg q).subset hc
      rcases mem_collapseUnderscoresAux _ _ (Nat.le_refl _) c hcq with hcs | hcu
      · rcases mem_subNonAlnumAux _ _ (Nat.le_refl _) c hcs with h1 | h1
        · simp [h1]
        · simp [h1]
      · simp [hcu]
    · cases hs : stripUnderscores q with
      | nil => decide
      | cons a l2 =>
        have := stripUnderscores_head? q a (by rw [hs]; rfl)
        simp only [List.take_succ_cons, List.take_zero]
        simp only [eq_iff_iff, iff_false] at this
        simp [this]
    · cases hs : (stripUnderscores q).reverse with
      | nil => decide
      | cons a l2 =>
        have := stripUnderscores_getLast q a (by rw [hs]; rfl)
        simp only [List.take_succ_cons, List.take_zero]
        simp only [eq_iff_iff, iff_false] at this
        simp [this]
    · rw [containsSub_eq_false_iff]
      intro hdd
      exact collapse_no_dd _ _ (Nat.le_refl _) (hdd.trans (stripUnderscores_subseg q))

/-- C4: when either diff input is empty, both `compute_diff_html` variants
return their insufficient-input placeholder and perform no diff computation
at all — in particular the difflib anchor counter is left untouched, since
the early return precedes the `HtmlDiff` construction. -/
theorem C4_insufficient_input (counter : Nat) (primary compare : List Char)
    (h : primary = [] ∨ compare = []) :
    compute_diff_html counter primary compare = (insufficientMsg, counter) ∧
    compute_diff_html_gradio counter primary compare = (insufficientMsgGradio, counter) := by
  have hb : (primary.isEmpty || compare.isEmpty) = true := by
    rcases h with h | h <;> simp [h]
  constructor <;> simp only [compute_diff_html, compute_diff_html_gradio, hb, if_true]

/-- C4 witness: diffing an empty original against a non-empty working text. -/
theorem C4_insufficient_input_witness :
    compute_diff_html 5 [] ("x".toList) = (insufficientMsg, 5) ∧
    compute_diff_html_gradio 5 [] ("x".toList) = (insufficientMsgGradio, 5) :=
  C4_insufficient_input 5 [] ("x".toList) (Or.inl rfl)

set_option maxRecDepth 100000 in
/-- C3 is violated by the code: `difflib.HtmlDiff.make_table` embeds the
process-global `HtmlDiff._default_prefix` counter in its anchor ids, so two
calls of `compute_diff_html` on the same pair of inputs return different
HTML — the first call returns counter state 1, and re-running the very same
call from that state produces a different string (`to0_` vs `to1_`
anchors). -/
theorem C3_diff_depends_on_call_history :
    (compute_diff_html 0 "a".toList "a".toList).2 = 1 ∧
    ((compute_diff_html 0 "a".toList "a".toList).1 ==
      (compute_diff_html ((compute_diff_html 0 "a".toList "a".toList).2)
        "a".toList "a".toList).1) = false := by
  decide

/-! ### Span invariants of the section scanner (C1) -/

theorem findCloseBrace_le (s : List Char) :
    ∀ fuel i j, findCloseBrace s i fuel = some j → i ≤ j := by
  intro fuel
  induction fuel with
  | zero => intro i j h; simp [findCloseBrace] at h
  | succ n ih =>
    intro i j h
    simp only [findCloseBrace] at h
    cases hsi : s[i]? with
    | none => rw [hsi] at h; simp at h
    | some c =>
      rw [hsi] at h
      have h' : (if c = '\x7d' then some i else findCloseBrace s (i + 1) n) = some j := h
      by_cases hc : c = '\x7d'
      · rw [if_pos hc] at h'
        simp only [Option.some.injEq] at h'
        omega
      · rw [if_neg hc] at h'
        exact Nat.le_of_succ_le (ih (i + 1) j h')

theorem findLookahead_spec (s : List Char) :
    ∀ fuel i e, findLookahead s i fuel = some e →
      i ≤ e ∧ lookaheadAt s e = true := by
  intro fuel
  induction fuel with
  | zero => intro i e h; simp [findLookahead] at h
  | succ n ih =>
    intro i e h
    simp only [findLookahead] at h
    by_cases hl : lookaheadAt s i
    · rw [if_pos hl] at h
      simp only [Option.some.injEq] at h
      exact ⟨Nat.le_of_eq h, h ▸ hl⟩
    · rw [if_neg hl] at h
      obtain ⟨h1, h2⟩ := ih (i + 1) e h
      exact ⟨Nat.le_of_succ_le h1, h2⟩

theorem lookaheadAt_lt_length (s : List Char) (i : Nat)
    (h : lookaheadAt s i = true) : i < s.length := by
  simp only [lookaheadAt, Bool.or_eq_true] at h
  rcases h with h | h
  · have hle := (List.isPrefixOf_iff_prefix.mp h).length_le
    rw [List.length_drop] at hle
    have h9 : sectionLit.length = 9 := rfl
    omega
  · have hle := (List.isPrefixOf_iff_prefix.mp h).length_le
    rw [List.length_drop] at hle
    have h14 : endDocumentLit.length = 14 := rfl
    omega

theorem scanSections_spec (s : List Char) :
    ∀ fuel i idx,
      (scanSections s i idx fuel).Forall (fun sec =>
        i + 10 ≤ sec.body_start ∧ sec.body_start ≤ sec.body_end ∧
        sec.body_end ≤ s.length ∧
        (s.drop sec.body_start).take (sec.body_end - sec.body_start) = sec.body) ∧
      List.Chain' (fun a b => a.body_end < b.body_start) (scanSections s i idx fuel) := by
  intro fuel
  induction fuel with
  | zero => intro i idx; exact ⟨trivial, by simp [scanSections]⟩
  | succ n ih =>
    intro i idx
    cases hp : sectionLit.isPrefixOf (s.drop i) with
    | false =>
      have heq : scanSections s i idx (n + 1) = scanSections s (i + 1) idx n := by
        simp only [scanSections, hp, Bool.false_eq_true, if_false]
      rw [heq]
      obtain ⟨hF, hC⟩ := ih (i + 1) idx
      exact ⟨hF.imp (fun a ha => ⟨by omega, ha.2⟩), hC⟩
    | true =>
      cases hj : findCloseBrace s (i + 9) (s.length + 1) with
      | none =>
        have heq : scanSections s i idx (n + 1) = scanSections s (i + 1) idx n := by
          simp only [scanSections, hp, if_true, hj]
        rw [heq]
        obtain ⟨hF, hC⟩ := ih (i + 1) idx
        exact ⟨hF.imp (fun a ha => ⟨by omega, ha.2⟩), hC⟩
      | some j =>
        cases he : findLookahead s (j + 1) (s.length + 1) with
        | none =>
          have heq : scanSections s i idx (n + 1) = scanSections s (i + 1) idx n := by
            simp only [scanSections, hp, if_true, hj, he]
          rw [heq]
          obtain ⟨hF, hC⟩ := ih (i + 1) idx
          exact ⟨hF.imp (fun a ha => ⟨by omega, ha.2⟩), hC⟩
        | some e =>
          have hij : i + 9 ≤ j := findCloseBrace_le s _ _ _ hj
          obtain ⟨hje, hla⟩ := findLookahead_spec s _ _ _ he
          have helen : e < s.length := lookaheadAt_lt_length s e hla
          obtain ⟨hF, hC⟩ := ih e (idx + 1)
          have heq : scanSections s i idx (n + 1) =
              { index := idx
                title :=
                  (let t := pyStrip ((s.drop (i + 9)).take (j - (i + 9)))
                   if t = [] then "Section ".toList ++ (Nat.repr idx).toList else t)
                body := (s.drop (j + 1)).take (e - (j + 1))
                body_start := j + 1
                body_end := e } :: scanSections s e (idx + 1) n := by
            simp only [scanSections, hp, if_true, hj, he]
          rw [heq]
          constructor
          · rw [List.forall_cons]
            constructor
            · refine ⟨?_, ?_, ?_, rfl⟩
              · show i + 10 ≤ j + 1
                omega
              · show j + 1 ≤ e
                omega
              · show e ≤ s.length
                omega
            · exact hF.imp (fun a ha => ⟨by omega, ha.2⟩)
          · rw [List.chain'_cons']
            refine ⟨?_, hC⟩
            intro b hb
            have hbmem : b ∈ scanSections s e (idx + 1) n :=
              List.mem_of_mem_head? hb
            obtain ⟨hb1, -⟩ := List.forall_iff_forall_mem.mp hF b hbmem
            show e < b.body_start
            omega

theorem splice_restore (doc : List Char) (b e : Nat) (hbe : b ≤ e) :
    doc.take b ++ (doc.drop b).take (e - b) ++ doc.drop e = doc := by
  have h1 : (doc.drop b).drop (e - b) = doc.drop e := by
    rw [List.drop_drop]
    congr 1
    omega
  calc doc.take b ++ (doc.drop b).take (e - b) ++ doc.drop e
      = doc.take b ++ ((doc.drop b).take (e - b) ++ (doc.drop b).drop (e - b)) := by
        rw [h1, List.append_assoc]
    _ = doc.take b ++ doc.drop b := by rw [List.take_append_drop]
    _ = doc := List.take_append_drop b doc

set_option maxRecDepth 100000 in
/-- C1 counterexample: on the spec's own scenario input the extractor
returns one section, not two.  The regex body group requires a following
`\section{` or `\end{document}` lookahead, so the final heading of a
document that does not end with `\end{document}` never matches: the
"Conclusion" section is dropped. -/
theorem C1_counterexample :
    (parse_sections scenarioDoc).length = 1 ∧
    (parse_sections scenarioDoc).map ParsedSection.title = ["Intro".toList] ∧
    ((parse_sections scenarioDoc).map ParsedSection.title ==
      ["Intro".toList, "Conclusion".toList]) = false := by
  decide

set_option maxRecDepth 100000 in
/-- C1 (amended): for every document, the sections `parse_sections` returns
appear in source order with body spans that are in bounds, non-overlapping
and strictly increasing, and splicing a section's own body back into its
recorded span reproduces the document byte-for-byte.  The count can be
fewer than the number of headings: the scenario input yields the single
section "Intro" (the "Conclusion" heading is dropped), while appending
`\end{document}` to it yields "Intro" and "Conclusion". -/
theorem C1_sections_spans (doc : List Char) :
    List.Chain' (fun a b => a.body_end < b.body_start) (parse_sections doc) ∧
    (parse_sections doc).Forall (fun sec =>
      sec.body_start ≤ sec.body_end ∧ sec.body_end ≤ doc.length ∧
      (doc.drop sec.body_start).take (sec.body_end - sec.body_start) = sec.body ∧
      doc.take sec.body_start ++ sec.body ++ doc.drop sec.body_end = doc) ∧
    (parse_sections scenarioDoc).map ParsedSection.title = ["Intro".toList] ∧
    (parse_sections scenarioDocTerminated).map ParsedSection.title =
      ["Intro".toList, "Conclusion".toList] ∧
    (parse_sections scenarioDocTerminated).map
      (fun sec => (sec.body_start, sec.body_end)) = [(15, 29), (49, 53)] := by
  obtain ⟨hF, hC⟩ := scanSections_spec doc (doc.length + 1) 0 1
  refine ⟨hC, ?_, by decide, by decide, by decide⟩
  apply hF.imp
  intro sec hsec
  obtain ⟨-, h2, h3, h4⟩ := hsec
  refine ⟨h2, h3, h4, ?_⟩
  rw [← h4]
  exact splice_restore doc _ _ h2

/-! ### No-marker property of the diff on identical inputs (C5) -/

theorem digitChar_isDigit (k : Nat) : (digitChar k).isDigit = true := by
  simp only [digitChar]
  by_cases h : k < 10
  · interval_cases k <;> decide
  · rw [List.getD_eq_default]
    · decide
    · simp only [List.length_cons, List.length_nil]
      omega

theorem natReprAux_digits :
    ∀ fuel n c, c ∈ natReprAux fuel n → c.isDigit = true := by
  intro fuel
  induction fuel with
  | zero => intro n c hc; simp [natReprAux] at hc
  | succ m ih =>
    intro n c hc
    simp only [natReprAux] at hc
    by_cases h : n < 10
    · rw [if_pos h] at hc
      simp only [List.mem_singleton] at hc
      exact hc ▸ digitChar_isDigit n
    · rw [if_neg h] at hc
      rcases List.mem_append.mp hc with h2 | h2
      · exact ih _ c h2
      · simp only [List.mem_singleton] at h2
        exact h2 ▸ digitChar_isDigit _

theorem natRepr_digits (n : Nat) : ∀ c ∈ natRepr n, c.isDigit = true :=
  fun c hc => natReprAux_digits _ n c hc

theorem natRepr_ne_nil (n : Nat) : natRepr n ≠ [] := by
  simp only [natRepr, natReprAux]
  by_cases h : n < 10
  · simp [h]
  · rw [if_neg h]
    simp

theorem not_infix_append_digits {pat u d v : List Char}
    (hpat : ∀ c ∈ pat, c.isDigit = false)
    (hdne : d ≠ []) (hd : ∀ c ∈ d, c.isDigit = true)
    (hu : ¬ pat <:+: u) (hv : ¬ pat <:+: v) :
    ¬ pat <:+: u ++ (d ++ v) := by
  intro hinf
  have hpne : pat ≠ [] := fun hp => hu (hp ▸ List.nil_infix)
  obtain ⟨s, t, hst⟩ := hinf
  rw [List.append_assoc] at hst
  have h1 : pat ++ t = (u ++ (d ++ v)).drop s.length := by
    rw [← hst]
    exact (List.drop_left s (pat ++ t)).symm
  by_cases hA : s.length + pat.length ≤ u.length
  · apply hu
    have h2 : (u ++ (d ++ v)).drop s.length =
        u.drop s.length ++ (d ++ v).drop (s.length - u.length) :=
      List.drop_append_eq_append_drop
    have h3 : s.length - u.length = 0 := by omega
    rw [h2, h3, List.drop_zero] at h1
    have h4 : pat = (u.drop s.length).take pat.length := by
      have h5 := congrArg (List.take pat.length) h1
      rw [List.take_left' rfl] at h5
      rw [List.take_append_of_le_length (by simp [List.length_drop]; omega)] at h5
      exact h5
    have h6 : pat <+: u.drop s.length := h4 ▸ List.take_prefix pat.length (u.drop s.length)
    exact h6.isInfix.trans (List.drop_suffix s.length u).isInfix
  · by_cases hB : u.length + d.length ≤ s.length
    · apply hv
      have h2 : (u ++ (d ++ v)).drop s.length =
          v.drop (s.length - u.length - d.length) := by
        rw [List.drop_append_eq_append_drop]
        rw [List.drop_eq_nil_of_le (by omega : u.length ≤ s.length), List.nil_append]
        rw [List.drop_append_eq_append_drop]
        rw [List.drop_eq_nil_of_le (by omega : d.length ≤ s.length - u.length),
          List.nil_append]
      rw [h2] at h1
      have h4 : pat <+: v.drop (s.length - u.length - d.length) := ⟨t, h1.symm ▸ rfl⟩
      exact h4.isInfix.trans (List.drop_suffix _ v).isInfix
    · have hdl : 0 < d.length := List.length_pos.mpr hdne
      have hpl : 0 < pat.length := List.length_pos.mpr hpne
      set m := max s.length u.length with hm
      have hmu : u.length ≤ m := Nat.le_max_right _ _
      have hms : s.length ≤ m := Nat.le_max_left _ _
      have hmlt1 : m < u.length + d.length := by omega
      have hmlt2 : m < s.length + pat.length := by omega
      have hchar : (u ++ (d ++ v))[m]? = (s ++ (pat ++ t))[m]? := by rw [hst]
      have hL : (u ++ (d ++ v))[m]? = d[m - u.length]? := by
        rw [List.getElem?_append_right hmu]
        rw [List.getElem?_append]
        rw [if_pos (by omega : m - u.length < d.length)]
      have hR : (s ++ (pat ++ t))[m]? = pat[m - s.length]? := by
        rw [List.getElem?_append_right hms]
        rw [List.getElem?_append]
        rw [if_pos (by omega : m - s.length < pat.length)]
      have hdm : m - u.length < d.length := by omega
      obtain ⟨c, hcd⟩ : ∃ c, d[m - u.length]? = some c :=
        ⟨_, List.getElem?_eq_getElem hdm⟩
      have hc : pat[m - s.length]? = some c := by
        rw [← hR, ← hchar, hL, hcd]
      have hmemp : c ∈ pat := by
        obtain ⟨hlt, he⟩ := List.getElem?_eq_some.mp hc
        exact he ▸ List.getElem_mem hlt
      have hmemd : c ∈ d := by
        obtain ⟨hlt, he⟩ := List.getElem?_eq_some.mp hcd
        exact he ▸ List.getElem_mem hlt
      have hfalse := hpat _ hmemp
      have htrue := hd _ hmemd
      rw [htrue] at hfalse
      exact absurd hfalse (by simp)

/-- Three nested applications of the digit-boundary lemma, matching the
shape of the no-difference diff output (three counter insertions). -/
theorem not_infix_noDiffShape {pat u1 u2 u3 u4 d : List Char}
    (hpat : ∀ c ∈ pat, c.isDigit = false)
    (hdne : d ≠ []) (hd : ∀ c ∈ d, c.isDigit = true)
    (h1 : ¬ pat <:+: u1) (h2 : ¬ pat <:+: u2) (h3 : ¬ pat <:+: u3)
    (h4 : ¬ pat <:+: u4) :
    ¬ pat <:+: u1 ++ (d ++ (u2 ++ (d ++ (u3 ++ (d ++ u4))))) := by
  apply not_infix_append_digits hpat hdne hd h1
  apply not_infix_append_digits hpat hdne hd h2
  apply not_infix_append_digits hpat hdne hd h3 h4

theorem mdiffContext_self (a : List (List Char)) : mdiffContext a a = [] := by
  simp [mdiffContext]

theorem assembleCore_noDiff (tp fp : List Char) :
    assembleCore tp fp "Original".toList "Working".toList true 1 [] =
      "\n    <table class=\x22diff\x22 id=\x22difflib_chg_".toList ++ tp ++
        "_top\x22\n           cellspacing=\x220\x22 cellpadding=\x220\x22 rules=\x22groups\x22 >\n        <colgroup></colgroup> <colgroup></colgroup> <colgroup></colgroup>\n        <colgroup></colgroup> <colgroup></colgroup> <colgroup></colgroup>\n        ".toList ++
        headerRow "Original".toList "Working".toList ++ "\n        <tbody>\n".toList ++
        (dataRow [] (tLink tp) noDiffFoundCell noDiffFoundCell ++ []) ++
        "        </tbody>\n    </table>".toList := by
  rfl

theorem headerRow_OW :
    headerRow "Original".toList "Working".toList =
      "<thead><tr><th class=\x22diff_next\x22><br /></th><th colspan=\x222\x22 class=\x22diff_header\x22>".toList ++
        "Original".toList ++
        "</th><th class=\x22diff_next\x22><br /></th><th colspan=\x222\x22 class=\x22diff_header\x22>".toList ++
        "Working".toList ++ "</th></tr></thead>".toList := by
  rfl

set_option maxRecDepth 100000 in
/-- The no-difference table, split at the three insertions of the anchor
counter digits. -/
theorem assembleCore_noDiff_split (dd fp : List Char) :
    assembleCore ("to".toList ++ dd ++ "_".toList) fp
        "Original".toList "Working".toList true 1 [] =
      noDiffA1 ++ (dd ++ (noDiffA2 ++ (dd ++ (noDiffA3 ++ (dd ++ noDiffA4))))) := by
  have hA1 : noDiffA1 =
      "\n    <table class=\x22diff\x22 id=\x22difflib_chg_".toList ++ "to".toList := by
    decide
  have hA2 : noDiffA2 =
      "_".toList ++
      "_top\x22\n           cellspacing=\x220\x22 cellpadding=\x220\x22 rules=\x22groups\x22 >\n        <colgroup></colgroup> <colgroup></colgroup> <colgroup></colgroup>\n        <colgroup></colgroup> <colgroup></colgroup> <colgroup></colgroup>\n        ".toList ++
      "<thead><tr><th class=\x22diff_next\x22><br /></th><th colspan=\x222\x22 class=\x22diff_header\x22>".toList ++
      "Original".toList ++
      "</th><th class=\x22diff_next\x22><br /></th><th colspan=\x222\x22 class=\x22diff_header\x22>".toList ++
      "Working".toList ++ "</th></tr></thead>".toList ++
      "\n        <tbody>\n".toList ++
      "            <tr><td class=\x22diff_next\x22".toList ++ ">".toList ++
      "<a href=\x22#difflib_chg_".toList ++ "to".toList := by
    decide
  have hA3 : noDiffA3 =
      "_".toList ++ "_top\x22>t</a>".toList ++ "</td>".toList ++ noDiffFoundCell ++
      "<td class=\x22diff_next\x22>".toList ++
      "<a href=\x22#difflib_chg_".toList ++ "to".toList := by
    decide
  have hA4 : noDiffA4 =
      "_".toList ++ "_top\x22>t</a>".toList ++ "</td>".toList ++ noDiffFoundCell ++
      "</tr>\n".toList ++ "        </tbody>\n    </table>".toList := by
    decide
  rw [assembleCore_noDiff, headerRow_OW, hA1, hA2, hA3, hA4]
  simp only [dataRow, tLink, List.append_nil, List.nil_append, List.append_assoc]

set_option maxRecDepth 1000000 in
theorem applyMarkers_noDiff (dd : List Char) (hdne : dd ≠ [])
    (hd : ∀ c ∈ dd, c.isDigit = true) :
    applyMarkers (noDiffA1 ++ (dd ++ (noDiffA2 ++ (dd ++ (noDiffA3 ++ (dd ++ noDiffA4)))))) =
      noDiffA1 ++ (dd ++ (noDiffA2 ++ (dd ++ (noDiffA3 ++ (dd ++ noDiffA4))))) := by
  have h1 : ¬ (['\x00', '+'] <:+:
      noDiffA1 ++ (dd ++ (noDiffA2 ++ (dd ++ (noDiffA3 ++ (dd ++ noDiffA4)))))) :=
    not_infix_noDiffShape (by decide) hdne hd (by decide) (by decide) (by decide) (by decide)
  have h2 : ¬ (['\x00', '-'] <:+:
      noDiffA1 ++ (dd ++ (noDiffA2 ++ (dd ++ (noDiffA3 ++ (dd ++ noDiffA4)))))) :=
    not_infix_noDiffShape (by decide) hdne hd (by decide) (by decide) (by decide) (by decide)
  have h3 : ¬ (['\x00', '^'] <:+:
      noDiffA1 ++ (dd ++ (noDiffA2 ++ (dd ++ (noDiffA3 ++ (dd ++ noDiffA4)))))) :=
    not_infix_noDiffShape (by decide) hdne hd (by decide) (by decide) (by decide) (by decide)
  have h4 : ¬ (("\x01".toList) <:+:
      noDiffA1 ++ (dd ++ (noDiffA2 ++ (dd ++ (noDiffA3 ++ (dd ++ noDiffA4)))))) :=
    not_infix_noDiffShape (by decide) hdne hd (by decide) (by decide) (by decide) (by decide)
  have h5 : ¬ (("\t".toList) <:+:
      noDiffA1 ++ (dd ++ (noDiffA2 ++ (dd ++ (noDiffA3 ++ (dd ++ noDiffA4)))))) :=
    not_infix_noDiffShape (by decide) hdne hd (by decide) (by decide) (by decide) (by decide)
  simp only [applyMarkers]
  rw [replaceLit_id _ _ h1, replaceLit_id _ _ h2, replaceLit_id _ _ h3,
    replaceLit_id _ _ h4, replaceLit_id _ _ h5]

set_option maxRecDepth 1000000 in
/-- C5: diffing a non-empty text against itself yields a diff output with
zero changed, added or removed line markers — no `diff_add`, `diff_sub` or
`diff_chg` cell attribute anywhere — at every anchor-counter state.  (The
`DIFF_CSS` prelude names those classes only as CSS selectors, never as a
`class="..."` attribute.) -/
theorem C5_identical_diff_no_markers (x : List Char) (counter : Nat) (hx : x ≠ []) :
    containsSub addMarker (compute_diff_html counter x x).1 = false ∧
    containsSub subMarker (compute_diff_html counter x x).1 = false ∧
    containsSub chgMarker (compute_diff_html counter x x).1 = false := by
  have hne : x.isEmpty = false := by
    cases x with
    | nil => exact absurd rfl hx
    | cons a l => rfl
  have hdd := natRepr_ne_nil counter
  have hdig := natRepr_digits counter
  have hout : (compute_diff_html counter x x).1 =
      DIFF_CSS ++ "<div class='diff-table'>".toList ++
        (noDiffA1 ++ (natRepr counter ++ (noDiffA2 ++ (natRepr counter ++
          (noDiffA3 ++ (natRepr counter ++ noDiffA4)))))) ++ "</div>".toList := by
    simp only [compute_diff_html, make_table, assembleTable, hne, Bool.or_self,
      Bool.false_eq_true, if_false, mdiffContext_self, assembleCore_noDiff_split,
      applyMarkers_noDiff (natRepr counter) hdd hdig]
  have hre : DIFF_CSS ++ "<div class='diff-table'>".toList ++
      (noDiffA1 ++ (natRepr counter ++ (noDiffA2 ++ (natRepr counter ++
        (noDiffA3 ++ (natRepr counter ++ noDiffA4)))))) ++ "</div>".toList =
      (DIFF_CSS ++ "<div class='diff-table'>".toList ++ noDiffA1) ++
        (natRepr counter ++ (noDiffA2 ++ (natRepr counter ++
          (noDiffA3 ++ (natRepr counter ++ (noDiffA4 ++ "</div>".toList)))))) := by
    simp only [List.append_assoc]
  rw [hout, hre]
  refine ⟨?_, ?_, ?_⟩ <;> rw [containsSub_eq_false_iff]
  · exact not_infix_noDiffShape (by decide) hdd hdig
      (by decide) (by decide) (by decide) (by decide)
  · exact not_infix_noDiffShape (by decide) hdd hdig
      (by decide) (by decide) (by decide) (by decide)
  · exact not_infix_noDiffShape (by decide) hdd hdig
      (by decide) (by decide) (by decide) (by decide)

/-- C5 witness: the single-line document "a". -/
theorem C5_identical_diff_no_markers_witness :
    containsSub addMarker (compute_diff_html 0 "a".toList "a".toList).1 = false ∧
    containsSub subMarker (compute_diff_html 0 "a".toList "a".toList).1 = false ∧
    containsSub chgMarker (compute_diff_html 0 "a".toList "a".toList).1 = false :=
  C5_identical_diff_no_markers ("a".toList) 0 (by decide)

/-! ### Version-store properties (C6, C9, C10) -/

theorem filter_id_map_update (l : List Section) (k : Nat) (g : Section → Section)
    (hg : ∀ x, (g x).id = x.id) :
    (l.map (fun x => if x.id == k then g x else x)).filter (fun x => x.id == k) =
      (l.filter (fun x => x.id == k)).map g := by
  induction l with
  | nil => rfl
  | cons a l ih =>
    by_cases ha : (a.id == k) = true
    · have hga : ((g a).id == k) = true := by rw [hg a]; exact ha
      simp only [List.map_cons, List.filter_cons, ha, hga, if_true, ih]
    · simp only [List.map_cons, List.filter_cons, ha, if_false, ih,
        Bool.false_eq_true]

/-- C6: for an existing topic and section index, promotion succeeds and (a)
the section row afterwards has `approved_html` equal to its previous
working content and its working content unchanged, and (b) the section's
version history is its old history plus exactly one new record labelled
"approved" whose content is that working content. -/
theorem C6_promote_sets_baseline (db : DB) (now : Nat) (cp : List Char) (k : Nat)
    (t : Topic) (s0 : Section)
    (ht : db.topics.filter (fun x => x.slug == slug_from_identifier cp) = [t])
    (hs : db.sections.filter
      (fun x => x.topic_id == t.id && x.order_index == k) = [s0])
    (hid : db.sections.filter (fun x => x.id == s0.id) = [s0]) :
    (promote_document db now cp k).map (fun db2 =>
      (db2.sections.filter (fun x => x.id == s0.id)).map
        (fun x => (x.html_content, x.approved_html))) =
      some [(s0.html_content, some s0.html_content)] ∧
    (promote_document db now cp k).map (fun db2 =>
      db2.versions.filter (fun v => v.section_id == s0.id)) =
      some (db.versions.filter (fun v => v.section_id == s0.id) ++
        [⟨db.nextVersionId, s0.id, "approved".toList, s0.html_content, now⟩]) := by
  have hp : promote_document db now cp k = some
      { db with
        sections := db.sections.map (fun s =>
          if s.id == s0.id then
            { s with approved_html := some s0.html_content, updated_at := now }
          else s)
        topics := db.topics.map (fun x =>
          if x.id == t.id then { x with updated_at := now } else x)
        versions := db.versions ++
          [⟨db.nextVersionId, s0.id, "approved".toList, s0.html_content, now⟩]
        nextVersionId := db.nextVersionId + 1 } := by
    simp only [promote_document, ht, hs, oneOrNone]
  rw [hp]
  constructor
  · simp only [Option.map_some']
    rw [filter_id_map_update db.sections s0.id
      (fun s => { s with approved_html := some s0.html_content, updated_at := now })
      (fun x => rfl)]
    rw [hid]
    rfl
  · simp only [Option.map_some']
    rw [List.filter_append]
    simp

/-- C6 witness: a one-topic, one-section database. -/
theorem C6_promote_sets_baseline_witness :
    (promote_document
        ⟨[⟨1, "t".toList, "t".toList, 0, 0, "draft".toList⟩],
         [⟨1, 1, 1, "T".toList, "body".toList, none, 0, 0⟩], [], 2, 2, 1⟩
        7 ("t".toList) 1).map (fun db2 =>
      (db2.sections.filter (fun x => x.id == 1)).map
        (fun x => (x.html_content, x.approved_html))) =
      some [("body".toList, some ("body".toList))] ∧
    (promote_document
        ⟨[⟨1, "t".toList, "t".toList, 0, 0, "draft".toList⟩],
         [⟨1, 1, 1, "T".toList, "body".toList, none, 0, 0⟩], [], 2, 2, 1⟩
        7 ("t".toList) 1).map (fun db2 =>
      db2.versions.filter (fun v => v.section_id == 1)) =
      some (List.filter (fun v => v.section_id == 1) [] ++
        [⟨1, 1, "approved".toList, "body".toList, 7⟩]) :=
  C6_promote_sets_baseline
    ⟨[⟨1, "t".toList, "t".toList, 0, 0, "draft".toList⟩],
     [⟨1, 1, 1, "T".toList, "body".toList, none, 0, 0⟩], [], 2, 2, 1⟩
    7 ("t".toList) 1
    ⟨1, "t".toList, "t".toList, 0, 0, "draft".toList⟩
    ⟨1, 1, 1, "T".toList, "body".toList, none, 0, 0⟩
    (by decide) (by decide) (by decide)

theorem insertSections_eq :
    ∀ (data : List SectionData) (db : DB) (tid now order : Nat),
      insertSections db tid now order data =
        { db with
          sections := db.sections ++ builtSections db.nextSectionId tid now order data
          versions := db.versions ++ builtVersions db.nextVersionId db.nextSectionId now data
          nextSectionId := db.nextSectionId + data.length
          nextVersionId := db.nextVersionId + data.length } := by
  intro data
  induction data with
  | nil =>
    intro db tid now order
    simp [insertSections, builtSections, builtVersions]
  | cons d ds ih =>
    intro db tid now order
    rw [show insertSections db tid now order (d :: ds) =
        insertSections
          { db with
            sections := db.sections ++
              [⟨db.nextSectionId, tid, order, d.title, d.html, some d.html, now, now⟩]
            nextSectionId := db.nextSectionId + 1
            versions := db.versions ++
              [⟨db.nextVersionId, db.nextSectionId, "initial".toList, d.html, now⟩]
            nextVersionId := db.nextVersionId + 1 }
          tid now (order + 1) ds from rfl]
    rw [ih]
    simp only [builtSections, builtVersions, List.append_assoc, List.singleton_append,
      List.length_cons, DB.mk.injEq, true_and, and_true]
    omega

theorem builtVersions_bounds :
    ∀ (data : List SectionData) (vid sid now : Nat),
      (builtVersions vid sid now data).Forall (fun v => sid ≤ v.section_id) := by
  intro data
  induction data with
  | nil => intro vid sid now; trivial
  | cons d ds ih =>
    intro vid sid now
    rw [show builtVersions vid sid now (d :: ds) =
        ⟨vid, sid, "initial".toList, d.html, now⟩ :: builtVersions (vid + 1) (sid + 1) now ds
      from rfl]
    rw [List.forall_cons]
    exact ⟨Nat.le_refl sid, (ih (vid + 1) (sid + 1) now).imp (fun v hv => by omega)⟩

theorem builtVersions_filter_lt (data : List SectionData) (vid sid now k : Nat)
    (hk : k < sid) :
    (builtVersions vid sid now data).filter (fun v => v.section_id == k) = [] := by
  rw [List.filter_eq_nil_iff]
  intro v hv
  have hb := List.forall_iff_forall_mem.mp (builtVersions_bounds data vid sid now) v hv
  simp only [beq_iff_eq]
  omega

theorem builtSections_spec :
    ∀ (data : List SectionData) (sid vid tid now order : Nat),
      (builtSections sid tid now order data).length = data.length ∧
      (builtSections sid tid now order data).map (fun s => (s.title, s.html_content)) =
        data.map (fun d => (d.title, d.html)) ∧
      (builtSections sid tid now order data).Forall (fun s =>
        sid ≤ s.id ∧ s.topic_id = tid ∧ s.approved_html = some s.html_content ∧
        (builtVersions vid sid now data).filter (fun v => v.section_id == s.id) =
          [⟨vid + (s.id - sid), s.id, "initial".toList, s.html_content, now⟩]) := by
  intro data
  induction data with
  | nil =>
    intro sid vid tid now order
    refine ⟨rfl, rfl, ?_⟩
    rw [show builtSections sid tid now order [] = [] from rfl]
    trivial
  | cons d ds ih =>
    intro sid vid tid now order
    obtain ⟨ih1, ih2, ih3⟩ := ih (sid + 1) (vid + 1) tid now (order + 1)
    rw [show builtSections sid tid now order (d :: ds) =
        ⟨sid, tid, order, d.title, d.html, some d.html, now, now⟩ ::
          builtSections (sid + 1) tid now (order + 1) ds from rfl]
    rw [show builtVersions vid sid now (d :: ds) =
        ⟨vid, sid, "initial".toList, d.html, now⟩ :: builtVersions (vid + 1) (sid + 1) now ds
      from rfl]
    refine ⟨by simp [ih1], by simp [ih2], ?_⟩
    rw [List.forall_cons]
    constructor
    · refine ⟨Nat.le_refl sid, rfl, rfl, ?_⟩
      rw [List.filter_cons]
      simp [builtVersions_filter_lt ds (vid + 1) (sid + 1) now sid (Nat.lt_succ_self sid)]
    · apply ih3.imp
      intro s hs
      obtain ⟨hs1, hs2, hs3, hs4⟩ := hs
      refine ⟨by omega, hs2, hs3, ?_⟩
      rw [List.filter_cons]
      have hne : ((⟨vid, sid, "initial".toList, d.html, now⟩ :
          SectionVersion).section_id == s.id) = false := by
        simp only [beq_eq_false_iff_ne, ne_eq]
        show ¬ sid = s.id
        omega
      rw [hne]
      simp only [Bool.false_eq_true, if_false]
      rw [hs4]
      have harith : vid + 1 + (s.id - (sid + 1)) = vid + (s.id - sid) := by omega
      rw [harith]

theorem filter_neg_filter {α : Type} (l : List α) (p : α → Bool) :
    (l.filter (fun a => !(p a))).filter p = [] := by
  rw [List.filter_eq_nil_iff]
  intro a ha
  rw [List.mem_filter] at ha
  obtain ⟨-, h⟩ := ha
  intro hp
  rw [hp] at h
  exact absurd h (by simp)

theorem old_sections_gone (S : List Section) (tid : Nat)
    (hnodup : (S.map Section.id).Nodup) :
    (S.filter (fun s => !(s.topic_id == tid))).filter (fun s =>
      ((S.filter (fun x => x.topic_id == tid)).map Section.id).contains s.id) = [] := by
  rw [List.filter_eq_nil_iff]
  intro s hs
  rw [List.mem_filter] at hs
  obtain ⟨hsS, hsnt⟩ := hs
  intro hcb
  · have hmem : s.id ∈ (S.filter (fun x => x.topic_id == tid)).map Section.id := by
      simpa using hcb
    rw [List.mem_map] at hmem
    obtain ⟨y, hy, hyid⟩ := hmem
    rw [List.mem_filter] at hy
    have hys : y = s := List.inj_on_of_nodup_map hnodup hy.1 hsS hyid
    rw [hys] at hy
    rw [hy.2] at hsnt
    exact absurd hsnt (by simp)

theorem oldIds_lt (S : List Section) (tid nsid : Nat)
    (hwfS : S.all (fun s => decide (s.id < nsid)) = true) :
    ∀ k ∈ (S.filter (fun x => x.topic_id == tid)).map Section.id, k < nsid := by
  intro k hk
  rw [List.mem_map] at hk
  obtain ⟨y, hy, hyk⟩ := hk
  rw [List.mem_filter] at hy
  have hall := List.all_eq_true.mp hwfS y hy.1
  rw [← hyk]
  simpa using hall

theorem builtSections_filter_contains (data : List SectionData)
    (sid tid now order : Nat) (ids : List Nat) (hids : ∀ k ∈ ids, k < sid) :
    (builtSections sid tid now order data).filter (fun s => ids.contains s.id) = [] := by
  rw [List.filter_eq_nil_iff]
  intro s hs
  have hbound :=
    (List.forall_iff_forall_mem.mp ((builtSections_spec data sid 0 tid now order).2.2) s hs).1
  intro hcb
  have hmem : s.id ∈ ids := by simpa using hcb
  exact absurd (hids _ hmem) (by omega)

theorem builtVersions_filter_contains (data : List SectionData)
    (vid sid now : Nat) (ids : List Nat) (hids : ∀ k ∈ ids, k < sid) :
    (builtVersions vid sid now data).filter (fun v => ids.contains v.section_id) = [] := by
  rw [List.filter_eq_nil_iff]
  intro v hv
  have hbound := List.forall_iff_forall_mem.mp (builtVersions_bounds data vid sid now) v hv
  intro hcb
  have hmem : v.section_id ∈ ids := by simpa using hcb
  exact absurd (hids _ hmem) (by omega)

theorem builtSections_filter_topic (data : List SectionData)
    (sid tid now order : Nat) :
    (builtSections sid tid now order data).filter (fun s => s.topic_id == tid) =
      builtSections sid tid now order data := by
  rw [List.filter_eq_self]
  intro s hs
  have h :=
    (List.forall_iff_forall_mem.mp ((builtSections_spec data sid 0 tid now order).2.2) s hs).2.1
  simp [h]

theorem filtered_versions_beq_nil (V : List SectionVersion) (q : SectionVersion → Bool)
    (k nsid : Nat) (hwfV : V.all (fun v => decide (v.section_id < nsid)) = true)
    (hk : nsid ≤ k) :
    (V.filter q).filter (fun v => v.section_id == k) = [] := by
  rw [List.filter_eq_nil_iff]
  intro v hv
  rw [List.mem_filter] at hv
  have hall := List.all_eq_true.mp hwfV v hv.1
  simp only [decide_eq_true_eq] at hall
  simp only [beq_iff_eq]
  omega

/-- C9: regenerating a stored topic deletes all of its previous `Section`
rows together with their `SectionVersion` rows — afterwards no section with
an old id exists and no version references an old id, so the old version
history is unreachable — and the topic's sections are recreated from the
new document text. -/
theorem C9_regenerate_destroys_history (db : DB) (now : Nat)
    (name latex : List Char) (t : Topic)
    (ht : db.topics.filter (fun x => x.slug == slugify name) = [t])
    (hwfS : db.sections.all (fun s => decide (s.id < db.nextSectionId)) = true)
    (hnodup : (db.sections.map Section.id).Nodup) :
    (store_topic_sections db now name latex).map (fun r =>
      (r.2,
       r.1.sections.filter (fun s =>
         ((db.sections.filter (fun x => x.topic_id == t.id)).map Section.id).contains s.id),
       r.1.versions.filter (fun v =>
         ((db.sections.filter (fun x => x.topic_id == t.id)).map Section.id).contains
           v.section_id),
       (r.1.sections.filter (fun s => s.topic_id == t.id)).map
         (fun s => (s.title, s.html_content)))) =
      some (t.id, [], [],
        (sections_from_latex latex).map (fun d => (d.title, d.html))) := by
  have hp : store_topic_sections db now name latex =
      some (insertSections
        ⟨db.topics.map (fun x =>
            if x.id == t.id then { x with title := name, updated_at := now } else x),
         db.sections.filter (fun s => !(s.topic_id == t.id)),
         db.versions.filter (fun v =>
           !(((db.sections.filter (fun s => s.topic_id == t.id)).map Section.id).contains
             v.section_id)),
         db.nextTopicId, db.nextSectionId, db.nextVersionId⟩
        t.id now 1 (sections_from_latex latex), t.id) := by
    simp only [store_topic_sections, ht, oneOrNone]
  rw [hp, insertSections_eq]
  simp only [Option.map_some', Option.some.injEq, Prod.mk.injEq]
  refine ⟨trivial, ?_, ?_, ?_⟩
  · rw [List.filter_append]
    rw [old_sections_gone db.sections t.id hnodup]
    rw [builtSections_filter_contains _ _ _ _ _ _
      (oldIds_lt db.sections t.id db.nextSectionId hwfS)]
    rfl
  · rw [List.filter_append]
    rw [filter_neg_filter db.versions (fun v =>
      ((db.sections.filter (fun s => s.topic_id == t.id)).map Section.id).contains
        v.section_id)]
    rw [builtVersions_filter_contains _ _ _ _ _
      (oldIds_lt db.sections t.id db.nextSectionId hwfS)]
    rfl
  · rw [List.filter_append]
    rw [filter_neg_filter db.sections (fun s => s.topic_id == t.id)]
    rw [builtSections_filter_topic]
    rw [List.nil_append]
    exact (builtSections_spec (sections_from_latex latex) db.nextSectionId 0 t.id now 1).2.1

/-- C9 witness: a stored topic with one section and one version is
regenerated from a document with no headings (single fallback section). -/
theorem C9_regenerate_destroys_history_witness :
    (store_topic_sections
        ⟨[⟨1, "t".toList, "t".toList, 0, 0, "draft".toList⟩],
         [⟨1, 1, 1, "Old".toList, "oldbody".toList, some ("oldbody".toList), 0, 0⟩],
         [⟨1, 1, "initial".toList, "oldbody".toList, 0⟩], 2, 2, 2⟩
        5 ("t".toList) ("hello".toList)).map (fun r =>
      (r.2,
       r.1.sections.filter (fun s =>
         ((List.filter (fun x => x.topic_id == 1)
             [⟨1, 1, 1, "Old".toList, "oldbody".toList, some ("oldbody".toList), 0, 0⟩]).map
           Section.id).contains s.id),
       r.1.versions.filter (fun v =>
         ((List.filter (fun x => x.topic_id == 1)
             [⟨1, 1, 1, "Old".toList, "oldbody".toList, some ("oldbody".toList), 0, 0⟩]).map
           Section.id).contains v.section_id),
       (r.1.sections.filter (fun s => s.topic_id == 1)).map
         (fun s => (s.title, s.html_content)))) =
      some (1, [], [],
        (sections_from_latex ("hello".toList)).map (fun d => (d.title, d.html))) :=
  C9_regenerate_destroys_history
    ⟨[⟨1, "t".toList, "t".toList, 0, 0, "draft".toList⟩],
     [⟨1, 1, 1, "Old".toList, "oldbody".toList, some ("oldbody".toList), 0, 0⟩],
     [⟨1, 1, "initial".toList, "oldbody".toList, 0⟩], 2, 2, 2⟩
    5 ("t".toList) ("hello".toList)
    ⟨1, "t".toList, "t".toList, 0, 0, "draft".toList⟩
    (by decide) (by decide) (by decide)

theorem sections_from_latex_ne_nil (latex : List Char) :
    sections_from_latex latex ≠ [] := by
  simp only [sections_from_latex]
  by_cases hp : parse_sections latex = []
  · simp [hp]
  · simp [hp]

theorem store_result_initial_ok (T : List Topic) (S : List Section)
    (V : List SectionVersion) (ntid nsid nvid tid now : Nat) (data : List SectionData)
    (hwfV : V.all (fun v => decide (v.section_id < nsid)) = true)
    (hdata : data ≠ []) :
    ((insertSections
        ⟨T, S.filter (fun s => !(s.topic_id == tid)),
         V.filter (fun v =>
           !(((S.filter (fun s => s.topic_id == tid)).map Section.id).contains v.section_id)),
         ntid, nsid, nvid⟩ tid now 1 data).sections.filter
          (fun s => s.topic_id == tid)).isEmpty = false ∧
    ((insertSections
        ⟨T, S.filter (fun s => !(s.topic_id == tid)),
         V.filter (fun v =>
           !(((S.filter (fun s => s.topic_id == tid)).map Section.id).contains v.section_id)),
         ntid, nsid, nvid⟩ tid now 1 data).sections.filter
          (fun s => s.topic_id == tid)).all (fun s =>
        (s.approved_html == some s.html_content) &&
        (((insertSections
            ⟨T, S.filter (fun s => !(s.topic_id == tid)),
             V.filter (fun v =>
               !(((S.filter (fun s => s.topic_id == tid)).map Section.id).contains
                 v.section_id)),
             ntid, nsid, nvid⟩ tid now 1 data).versions.filter
              (fun v => v.section_id == s.id)).map (fun v => (v.label, v.html_content)) ==
          [("initial".toList, s.html_content)])) = true := by
  rw [insertSections_eq]
  have hsecs : ((⟨T, S.filter (fun s => !(s.topic_id == tid)),
      V.filter (fun v =>
        !(((S.filter (fun s => s.topic_id == tid)).map Section.id).contains v.section_id)),
      ntid, nsid, nvid⟩ : DB).sections ++ builtSections nsid tid now 1 data).filter
        (fun s => s.topic_id == tid) = builtSections nsid tid now 1 data := by
    rw [List.filter_append]
    rw [show (⟨T, S.filter (fun s => !(s.topic_id == tid)),
      V.filter (fun v =>
        !(((S.filter (fun s => s.topic_id == tid)).map Section.id).contains v.section_id)),
      ntid, nsid, nvid⟩ : DB).sections = S.filter (fun s => !(s.topic_id == tid)) from rfl]
    rw [filter_neg_filter S (fun s => s.topic_id == tid)]
    rw [builtSections_filter_topic]
    rw [List.nil_append]
  constructor
  · rw [hsecs]
    have hlen := (builtSections_spec data nsid nvid tid now 1).1
    cases hb : builtSections nsid tid now 1 data with
    | nil =>
      rw [hb] at hlen
      exact absurd (by simpa using hlen.symm) hdata
    | cons a l => rfl
  · rw [hsecs]
    rw [List.all_eq_true]
    intro s hs
    have hspec :=
      List.forall_iff_forall_mem.mp ((builtSections_spec data nsid nvid tid now 1).2.2) s hs
    obtain ⟨hid, -, happr, hfil⟩ := hspec
    have hver : ((⟨T, S.filter (fun s => !(s.topic_id == tid)),
        V.filter (fun v =>
          !(((S.filter (fun s => s.topic_id == tid)).map Section.id).contains v.section_id)),
        ntid, nsid, nvid⟩ : DB).versions ++ builtVersions nvid nsid now data).filter
          (fun v => v.section_id == s.id) =
        [⟨nvid + (s.id - nsid), s.id, "initial".toList, s.html_content, now⟩] := by
      rw [List.filter_append]
      rw [show (⟨T, S.filter (fun s => !(s.topic_id == tid)),
        V.filter (fun v =>
          !(((S.filter (fun s => s.topic_id == tid)).map Section.id).contains v.section_id)),
        ntid, nsid, nvid⟩ : DB).versions = V.filter (fun v =>
          !(((S.filter (fun s => s.topic_id == tid)).map Section.id).contains v.section_id))
        from rfl]
      rw [filtered_versions_beq_nil V _ s.id nsid hwfV hid]
      rw [hfil]
      rw [List.nil_append]
    rw [hver, happr]
    simp

/-- C10: directly after `store_topic_sections` returns, every section row of
the stored topic has `approved_html` equal to its `html_content` and exactly
one version record, labelled "initial", holding that same content; the
topic's section list is also never empty, so the diff baseline always equals
the working content and no per-section history is empty. -/
theorem C10_fresh_store_state (db : DB) (now : Nat) (name latex : List Char)
    (hlen : (db.topics.filter (fun x => x.slug == slugify name)).length ≤ 1)
    (hwfV : db.versions.all (fun v => decide (v.section_id < db.nextSectionId)) = true) :
    (store_topic_sections db now name latex).map (fun r =>
      ((r.1.sections.filter (fun s => s.topic_id == r.2)).isEmpty,
       (r.1.sections.filter (fun s => s.topic_id == r.2)).all (fun s =>
         (s.approved_html == some s.html_content) &&
         ((r.1.versions.filter (fun v => v.section_id == s.id)).map
            (fun v => (v.label, v.html_content)) ==
          [("initial".toList, s.html_content)])))) = some (false, true) := by
  cases hf : db.topics.filter (fun x => x.slug == slugify name) with
  | nil =>
    have hp : store_topic_sections db now name latex =
        some (insertSections
          ⟨db.topics ++ [⟨db.nextTopicId, slugify name, name, now, now, "draft".toList⟩],
           db.sections.filter (fun s => !(s.topic_id == db.nextTopicId)),
           db.versions.filter (fun v =>
             !(((db.sections.filter (fun s => s.topic_id == db.nextTopicId)).map
                 Section.id).contains v.section_id)),
           db.nextTopicId + 1, db.nextSectionId, db.nextVersionId⟩
          db.nextTopicId now 1 (sections_from_latex latex), db.nextTopicId) := by
      simp only [store_topic_sections, hf, oneOrNone]
    rw [hp]
    simp only [Option.map_some', Option.some.injEq, Prod.mk.injEq]
    have hok := store_result_initial_ok
      (db.topics ++ [⟨db.nextTopicId, slugify name, name, now, now, "draft".toList⟩])
      db.sections db.versions (db.nextTopicId + 1) db.nextSectionId db.nextVersionId
      db.nextTopicId now (sections_from_latex latex) hwfV
      (sections_from_latex_ne_nil latex)
    exact ⟨hok.1, hok.2⟩
  | cons t rest =>
    cases rest with
    | nil =>
      have hp : store_topic_sections db now name latex =
          some (insertSections
            ⟨db.topics.map (fun x =>
               if x.id == t.id then { x with title := name, updated_at := now } else x),
             db.sections.filter (fun s => !(s.topic_id == t.id)),
             db.versions.filter (fun v =>
               !(((db.sections.filter (fun s => s.topic_id == t.id)).map
                   Section.id).contains v.section_id)),
             db.nextTopicId, db.nextSectionId, db.nextVersionId⟩
            t.id now 1 (sections_from_latex latex), t.id) := by
        simp only [store_topic_sections, hf, oneOrNone]
      rw [hp]
      simp only [Option.map_some', Option.some.injEq, Prod.mk.injEq]
      have hok := store_result_initial_ok
        (db.topics.map (fun x =>
          if x.id == t.id then { x with title := name, updated_at := now } else x))
        db.sections db.versions db.nextTopicId db.nextSectionId db.nextVersionId
        t.id now (sections_from_latex latex) hwfV
        (sections_from_latex_ne_nil latex)
      exact ⟨hok.1, hok.2⟩
    | cons t2 r2 =>
      rw [hf] at hlen
      simp at hlen

/-- C10 witness: storing a fresh topic into an empty database. -/
theorem C10_fresh_store_state_witness :
    (store_topic_sections ⟨[], [], [], 1, 1, 1⟩ 3 ("t".toList) ("hello".toList)).map
      (fun r =>
        ((r.1.sections.filter (fun s => s.topic_id == r.2)).isEmpty,
         (r.1.sections.filter (fun s => s.topic_id == r.2)).all (fun s =>
           (s.approved_html == some s.html_content) &&
           ((r.1.versions.filter (fun v => v.section_id == s.id)).map
              (fun v => (v.label, v.html_content)) ==
            [("initial".toList, s.html_content)])))) = some (false, true) :=
  C10_fresh_store_state ⟨[], [], [], 1, 1, 1⟩ 3 ("t".toList) ("hello".toList)
    (by decide) (by decide)
